import Mathlib

/-!
Proctor: evaluation harness for a pluggable object-recognition detector.

A shallow embedding of `proctor/src/proctor.cpp` (namespace `pcl::proctor`) and the
properties of its sampler, its testing protocol and its statistics derivations.

Modelling conventions.
* C++ `int` loop counters and indices that only ever hold non-negative values are `Nat`;
  `scenes[ni].mi`, which the code reads but `test` never writes, stays an `Int`.
* `float` / `double` table entries are modelled by their exact rational value (`ℚ`);
  comparison of finite floating-point numbers agrees with comparison of these values,
  arithmetic on them is exact here.  NaN and infinities are not modelled.
* A row `t[ni]` of a `[num_trials][num_models]` table is a function on model indices and a
  table a function on trial indices; only indices below the configured bounds are storage.
* Undefined behaviour of the source (remainder by zero, a read outside an array) is the
  result `none`.
* Time is an explicit clock counted in ticks; every collaborator call of `train` reports how
  many ticks it took.
-/

namespace Proctor

/-! ## `Proctor::randomSubset` (proctor.cpp, lines 29-41) -/

/-- The pick loop `for (int i = 0; i < r; i++)` of `randomSubset`, with `k = r - i` iterations
left.  `rand i` is the value returned by the `i`-th call of `rand()`.  The result is `none` when
`rand() % edge` is taken with `edge = 0` or when `bag` or `subset` is indexed out of bounds. -/
def randomSubsetLoop (rand : Nat → Nat) :
    Nat → Nat → List Nat → Nat → List Nat → Option (List Nat)
  | 0, _, _, _, subset => some subset
  | k + 1, i, bag, edge, subset =>
    if edge = 0 then none
    else
      let pick := rand i % edge
      match bag[pick]? with
      | none => none
      | some v =>
        if i < subset.length then
          match bag[edge - 1]? with
          | none => none
          | some w =>
            randomSubsetLoop rand k (i + 1) (bag.set pick w) (edge - 1) (subset.set i v)
        else none

/-- `Proctor::randomSubset(n, r)`: `bag` starts as `0, 1, ..., n-1`, `edge` as `n`, and `subset`
is resized to `r` (value-initialised) entries before the pick loop runs. -/
def randomSubset (rand : Nat → Nat) (n r : Nat) : Option (List Nat) :=
  randomSubsetLoop rand r 0 (List.range n) n (List.replicate r 0)

/-- The ways in which a pick of `randomSubset` can leave defined behaviour, each with the index
`i` of the pick: `rand() % edge` with `edge = 0`, an access to `bag` outside its bounds, a write
to `subset` outside its bounds. -/
inductive PickFault where
  | remainderByZero (i : Nat)
  | bagOutOfBounds (i : Nat)
  | subsetOutOfBounds (i : Nat)
deriving DecidableEq

/-- The pick loop of `randomSubset` once more, reporting which operation of which pick went
wrong instead of the bare `none` of `randomSubsetLoop`. -/
def randomSubsetLoopChecked (rand : Nat → Nat) :
    Nat → Nat → List Nat → Nat → List Nat → Except PickFault (List Nat)
  | 0, _, _, _, subset => Except.ok subset
  | k + 1, i, bag, edge, subset =>
    if edge = 0 then Except.error (PickFault.remainderByZero i)
    else
      let pick := rand i % edge
      match bag[pick]? with
      | none => Except.error (PickFault.bagOutOfBounds i)
      | some v =>
        if i < subset.length then
          match bag[edge - 1]? with
          | none => Except.error (PickFault.bagOutOfBounds i)
          | some w =>
            randomSubsetLoopChecked rand k (i + 1) (bag.set pick w) (edge - 1) (subset.set i v)
        else Except.error (PickFault.subsetOutOfBounds i)

/-- `Proctor::randomSubset(n, r)` with the fault, if any, reported. -/
def randomSubsetChecked (rand : Nat → Nat) (n r : Nat) : Except PickFault (List Nat) :=
  randomSubsetLoopChecked rand r 0 (List.range n) n (List.replicate r 0)

/-- The `rand()` stream whose `i`-th value is the `i`-th pick position of `ps` (and 0 beyond the
`r` picks), for pick positions `ps i` in `[0, n - i)`. -/
def picksToRand (n r : Nat) (ps : (i : Fin r) → Fin (n - i)) : Nat → Nat :=
  fun i => if h : i < r then (ps ⟨i, h⟩).val else 0

/-! ## Configuration and result tables -/

/-- The compile-time constants `Config::num_trials` and `Config::num_models`
(declared in a header that is not part of the sources; taken as parameters). -/
structure Config where
  num_trials : Nat
  num_models : Nat

/-- Modelled from the spec: one row `classifier[ni]` or `registration[ni]`, a fixed-size array of
`num_models` numbers (the declaration is in a header that is not part of the sources). -/
abbrev Row := Nat → ℚ

/-- Modelled from the spec: a table `classifier` or `registration`, declared
`[num_trials][num_models]` in a header that is not part of the sources. -/
abbrev Table := Nat → Nat → ℚ

/-- The row `t[ni]` after the detector has written `row` through the pointer it was given. -/
def writeRow (t : Table) (ni : Nat) (row : Row) : Table :=
  fun n => if n = ni then row else t n

/-- The effect of `memset(t[ni], 0, sizeof(t[ni]))`: the whole row `ni`, and nothing else, is
cleared. -/
def zeroRow (t : Table) (ni : Nat) : Table :=
  fun n => if n = ni then fun _ => 0 else t n

/-! ## `ConfusionMatrix` -/

/-- Modelled from the spec: the class `ConfusionMatrix` of `proctor/confusion_matrix.h`, whose
code is not part of the sources.  It is a mapping from (truth id, guessed id) to a count, kept
here as an association list of cells in order of first use. -/
structure ConfusionMatrix where
  cells : List (String × String × Nat)
deriving DecidableEq

/-- Modelled from the spec: the cell update behind `ConfusionMatrix::increment`: the count of
the (truth, guess) cell goes up by one, and an absent cell is created with count 1. -/
def incrementCells : List (String × String × Nat) → String → String → List (String × String × Nat)
  | [], truth, guess => [(truth, guess, 1)]
  | (t, g, n) :: rest, truth, guess =>
    if t = truth ∧ g = guess then (t, g, n + 1) :: rest
    else (t, g, n) :: incrementCells rest truth guess

/-- Modelled from the spec: `ConfusionMatrix::increment(truthId, guessId)`. -/
def ConfusionMatrix.increment (m : ConfusionMatrix) (truth guess : String) : ConfusionMatrix :=
  ⟨incrementCells m.cells truth guess⟩

/-- Modelled from the spec: `ConfusionMatrix::total()`, the sum over all cells. -/
def ConfusionMatrix.total (m : ConfusionMatrix) : Nat :=
  (m.cells.map fun c => c.2.2).sum

/-- Modelled from the spec: `ConfusionMatrix::trace()`, the sum over the cells whose truth id
equals the guessed id. -/
def ConfusionMatrix.trace (m : ConfusionMatrix) : Nat :=
  ((m.cells.filter fun c => c.1 = c.2.1).map fun c => c.2.2).sum

/-! ## Collaborators and harness state -/

/-- The argument of `Detector::query`: `Scene test_scene(truth_id, test_cloud)`. -/
structure Scene (Cloud : Type) where
  id : String
  cloud : Cloud
deriving DecidableEq

/-- How a call of `detector.query` ends: it returns the guessed id, or it throws an exception
derived from `std::exception` (the only kind the handler of `test` catches). -/
inductive QueryOutcome where
  | guessed (guessed_id : String)
  | raised (what : String)
deriving DecidableEq

/-- Everything a call of `detector.query(scene, classifier[ni], registration[ni])` leaves behind:
how it ended, the contents of the two rows it was handed (as written up to the return or the
throw), and the collaborators' own state. -/
structure QueryResult (W : Type) where
  outcome : QueryOutcome
  classifier : Row
  registration : Row
  world : W

/-- The external collaborators of `test`: the process-wide generator seeded by `srand`, the model
source `source_` and the detector.  `W` is their combined mutable state, so that results may
differ from call to call.  Acquisition of a test cloud is taken to succeed. -/
structure Collaborators (W Cloud : Type) where
  srand : W → Nat → W
  getTestModel : W → String → Cloud × W
  query : W → Scene Cloud → Row → Row → QueryResult W

/-- The data members of `Proctor` that `test` and the statistics read or write:
`model_ids`, `scenes[ni].mi`, `confusion`, `classifier` and `registration`. -/
structure ProctorState where
  model_ids : List String
  scenes : Nat → Int
  confusion : Nat → Nat → Int
  classifier : Table
  registration : Table

/-- The state threaded through the trial loop of `test`: the members of `Proctor`, the
collaborators' state and the local `confusion_matrix`.  (The local map `guesses` is written but
never read and is left out; so are the timer and the console output.) -/
structure TestRun (W : Type) where
  proctor : ProctorState
  world : W
  confusion_matrix : ConfusionMatrix

/-! ## `Proctor::test` (proctor.cpp, lines 70-124) -/

/-- Line 91: `truth_id = model_ids[ni % model_ids.size()]`; the remainder by the size of an empty
catalog is undefined. -/
def truthId (model_ids : List String) (ni : Nat) : Option String :=
  if model_ids.length = 0 then none else model_ids[ni % model_ids.length]?

/-- The index expression of line 91, `ni % model_ids.size()`: the catalog position of the ground
truth of trial `ni`. -/
def truthIndex (model_ids : List String) (ni : Nat) : Option Nat :=
  if model_ids.length = 0 then none else some (ni % model_ids.length)

/-- Lines 91-105 of trial `ni`: pick the ground-truth id, acquire the test cloud for it, build the
scene and call `detector.query` with the rows `classifier[ni]` and `registration[ni]`.  Returns the
ground-truth id together with what the query left behind. -/
def trialQuery {W Cloud : Type} (c : Collaborators W Cloud) (ni : Nat) (s : TestRun W) :
    Option (String × QueryResult W) :=
  match truthId s.proctor.model_ids ni with
  | none => none
  | some truth_id =>
    let acquired := c.getTestModel s.world truth_id
    some (truth_id, c.query acquired.2 ⟨truth_id, acquired.1⟩
      (s.proctor.classifier ni) (s.proctor.registration ni))

/-- The body of the trial loop (lines 89-120).  Whatever the detector wrote into the two rows is
in the tables when `query` returns or throws; on success the confusion matrix is incremented, on
an exception both rows are cleared by `memset` and the matrix is left alone. -/
def testTrial {W Cloud : Type} (c : Collaborators W Cloud) (ni : Nat) (s : TestRun W) :
    Option (TestRun W) :=
  match trialQuery c ni s with
  | none => none
  | some (truth_id, res) =>
    let written : ProctorState :=
      { s.proctor with
        classifier := writeRow s.proctor.classifier ni res.classifier
        registration := writeRow s.proctor.registration ni res.registration }
    match res.outcome with
    | QueryOutcome.guessed guessed_id =>
      some
        { proctor := written
          world := res.world
          confusion_matrix := s.confusion_matrix.increment truth_id guessed_id }
    | QueryOutcome.raised _ =>
      some
        { proctor :=
            { written with
              classifier := zeroRow written.classifier ni
              registration := zeroRow written.registration ni }
          world := res.world
          confusion_matrix := s.confusion_matrix }

/-- The loop `for (int ni = 0; ni < k; ni++)` of `test`: trials `0, ..., k-1` in order. -/
def testTrials {W Cloud : Type} (c : Collaborators W Cloud) : Nat → TestRun W → Option (TestRun W)
  | 0, s => some s
  | k + 1, s =>
    match testTrials c k s with
    | none => none
    | some s' => testTrial c k s'

/-- Lines 71-86: `srand(seed)`, `memset(confusion, 0, sizeof(confusion))` and a fresh, empty
`confusion_matrix`. -/
def testInit {W Cloud : Type} (c : Collaborators W Cloud) (p : ProctorState) (w : W)
    (seed : Nat) : TestRun W :=
  { proctor := { p with confusion := fun _ _ => 0 }
    world := c.srand w seed
    confusion_matrix := ⟨[]⟩ }

/-- `Proctor::test(detector, seed)`: the state after all `num_trials` trials, with the confusion
matrix that is handed to `printConfusionMatrix`. -/
def test {W Cloud : Type} (c : Collaborators W Cloud) (cfg : Config) (p : ProctorState) (w : W)
    (seed : Nat) : Option (TestRun W) :=
  testTrials c cfg.num_trials (testInit c p w seed)

/-- How the query of trial `ni` ends within the run of `test` started from `p` and `w`. -/
def trialOutcome {W Cloud : Type} (c : Collaborators W Cloud) (p : ProctorState) (w : W)
    (seed : Nat) (ni : Nat) : Option QueryOutcome :=
  match testTrials c ni (testInit c p w seed) with
  | none => none
  | some s => (trialQuery c ni s).map fun r => r.2.outcome

/-- Whether the query of trial `ni` returned a guess within the run of `test`. -/
def trialSucceeded {W Cloud : Type} (c : Collaborators W Cloud) (p : ProctorState) (w : W)
    (seed : Nat) (ni : Nat) : Bool :=
  match trialOutcome c p w seed ni with
  | some (QueryOutcome.guessed _) => true
  | _ => false

/-- The ground-truth id that trial `ni` uses (for the acquisition, the scene and the confusion
matrix) within the run of `test` started from `p` and `w`. -/
def trialTruth {W Cloud : Type} (c : Collaborators W Cloud) (p : ProctorState) (w : W)
    (seed : Nat) (ni : Nat) : Option String :=
  match testTrials c ni (testInit c p w seed) with
  | none => none
  | some s => (trialQuery c ni s).map fun r => r.1

/-! ## `Proctor::printPrecisionRecall` (proctor.cpp, lines 126-159) -/

/-- The struct `Detection`: trial index, candidate model index, registration distance. -/
structure Detection where
  ni : Nat
  mi : Nat
  distance : ℚ
deriving DecidableEq

/-- Lines 139-145: the detection list, built trial by trial and model by model from the entries
of `registration` that are not zero (`if (!d.distance) continue;`). -/
def detections (cfg : Config) (registration : Table) : List Detection :=
  (List.range cfg.num_trials).flatMap fun ni =>
    (List.range cfg.num_models).filterMap fun mi =>
      if registration ni mi = 0 then none else some ⟨ni, mi, registration ni mi⟩

/-- Line 149: `detections[di].mi == scenes[detections[di].ni].mi`. -/
def isCorrect (scenes : Nat → Int) (d : Detection) : Bool :=
  decide ((d.mi : Int) = scenes d.ni)

/-- One line printed by `printPrecisionRecall`: precision, recall and the distance. -/
structure PRPoint where
  precisionValue : ℚ
  recallValue : ℚ
  distance : ℚ
deriving DecidableEq

/-- Lines 147-158: the walk over the sorted detections, at position `di` with `correct` correct
detections counted so far.  `double(correct) / double(di + 1)` and
`double(correct) / double(Config::num_trials)` are the exact quotients. -/
def prWalk (cfg : Config) (scenes : Nat → Int) : List Detection → Nat → Nat → List PRPoint
  | [], _, _ => []
  | d :: rest, di, correct =>
    if isCorrect scenes d then
      { precisionValue := ((correct + 1 : Nat) : ℚ) / ((di + 1 : Nat) : ℚ)
        recallValue := ((correct + 1 : Nat) : ℚ) / (cfg.num_trials : ℚ)
        distance := d.distance } :: prWalk cfg scenes rest (di + 1) (correct + 1)
    else prWalk cfg scenes rest (di + 1) correct

/-- The list that `printPrecisionRecall` walks: the detection list after
`sort(detections.begin(), detections.end())`.  The library routine is a parameter. -/
def sortedDetections (sort : List Detection → List Detection) (cfg : Config)
    (p : ProctorState) : List Detection :=
  sort (detections cfg p.registration)

/-- `Proctor::printPrecisionRecall()`: the lines it prints, in order. -/
def printPrecisionRecall (sort : List Detection → List Detection) (cfg : Config)
    (p : ProctorState) : List PRPoint :=
  prWalk cfg p.scenes (sortedDetections sort cfg p) 0 0

/-- A sorting routine that orders detections by `operator<`, that is by distance, used where a
concrete one is needed. -/
def sortByDistance (l : List Detection) : List Detection :=
  l.insertionSort fun a b => a.distance ≤ b.distance

/-- The order in which lines 139-145 append detections: trial by trial, and within one trial
model by model. -/
def insertedBefore (a b : Detection) : Prop :=
  a.ni < b.ni ∨ (a.ni = b.ni ∧ a.mi < b.mi)

/-- The contract of `std::sort` under `operator<` of line 132: the result is a rearrangement of
the input in which no element has a smaller distance than an element before it.  The relative
order of elements of equal distance is not specified. -/
def SortsByDistance (sort : List Detection → List Detection) : Prop :=
  ∀ l, (sort l).Perm l ∧ (sort l).Pairwise fun a b => a.distance ≤ b.distance

/-! ### The library routine behind `sort(detections.begin(), detections.end())`

Line 146 calls `std::sort`.  Its code is not part of the repository; the definitions below follow
the routine of the GNU C++ library as shipped with GCC 4.9 and later (`bits/stl_algo.h`: `__sort`, `__introsort_loop`,
`__unguarded_partition_pivot`, `__move_median_to_first`, `__unguarded_partition`,
`__final_insertion_sort`, `__insertion_sort`, `__unguarded_linear_insert`), with iterators as
indices into a list and `comp(a, b)` the `operator<` of line 132.  A result `none` stands for an
access outside the sequence, for a loop bound that was too small, and for the heap-sort
fall-back that the routine takes when its depth limit is used up, which is not modelled. -/

/-- `std::iter_swap(i, j)`. -/
def iterSwap (l : List Detection) (i j : Nat) : Option (List Detection) :=
  match l[i]?, l[j]? with
  | some x, some y => some ((l.set i y).set j x)
  | _, _ => none

/-- The comparison `comp(a, b)`: `operator<` of line 132, `a.distance < b.distance`. -/
def detectionLt (a b : Detection) : Bool :=
  decide (a.distance < b.distance)

/-- `std::__move_median_to_first(result, a, b, c, comp)`: swaps the median of the elements at
`a`, `b`, `c` to position `result`. -/
def moveMedianToFirst (l : List Detection) (result a b c : Nat) : Option (List Detection) :=
  match l[a]?, l[b]?, l[c]? with
  | some x, some y, some z =>
    if detectionLt x y then
      if detectionLt y z then iterSwap l result b
      else if detectionLt x z then iterSwap l result c
      else iterSwap l result a
    else if detectionLt x z then iterSwap l result a
    else if detectionLt y z then iterSwap l result c
    else iterSwap l result b
  | _, _, _ => none

/-- The loop `while (comp(first, pivot)) ++first;` of `__unguarded_partition`. -/
def scanUp (l : List Detection) (pivot : Detection) : Nat → Nat → Option Nat
  | 0, _ => none
  | fuel + 1, first =>
    match l[first]? with
    | none => none
    | some x => if detectionLt x pivot then scanUp l pivot fuel (first + 1) else some first

/-- The loop `while (comp(pivot, last)) --last;` of `__unguarded_partition`. -/
def scanDown (l : List Detection) (pivot : Detection) : Nat → Nat → Option Nat
  | 0, _ => none
  | fuel + 1, last =>
    match l[last]? with
    | none => none
    | some x =>
      if detectionLt pivot x then
        if last = 0 then none else scanDown l pivot fuel (last - 1)
      else some last

/-- `std::__unguarded_partition(first, last, pivot, comp)`: returns the rearranged sequence and
the cut position. -/
def unguardedPartition (pivot : Nat) : Nat → List Detection → Nat → Nat →
    Option (List Detection × Nat)
  | 0, _, _, _ => none
  | fuel + 1, l, first, last =>
    match l[pivot]? with
    | none => none
    | some p =>
      match scanUp l p (l.length + 1) first with
      | none => none
      | some first' =>
        if last = 0 then none
        else
          match scanDown l p (l.length + 1) (last - 1) with
          | none => none
          | some last' =>
            if first' < last' then
              match iterSwap l first' last' with
              | none => none
              | some l' => unguardedPartition pivot fuel l' (first' + 1) last'
            else some (l, first')

/-- `std::__introsort_loop(first, last, depth_limit, comp)`, with threshold 16: partition around
the median of three, sort the upper part recursively, continue with the lower part. -/
def introsortLoop : Nat → List Detection → Nat → Nat → Nat → Option (List Detection)
  | 0, _, _, _, _ => none
  | fuel + 1, l, first, last, depth_limit =>
    if last - first > 16 then
      if depth_limit = 0 then none
      else
        match moveMedianToFirst l first (first + 1) (first + (last - first) / 2) (last - 1) with
        | none => none
        | some l₁ =>
          match unguardedPartition first (l₁.length + 1) l₁ (first + 1) last with
          | none => none
          | some cut =>
            match introsortLoop fuel cut.1 cut.2 last (depth_limit - 1) with
            | none => none
            | some l₂ => introsortLoop fuel l₂ first cut.2 (depth_limit - 1)
    else some l

/-- `std::__unguarded_linear_insert(last, comp)` with `val` the element taken out of position
`last`: shift the larger elements up and put `val` in the gap. -/
def unguardedLinearInsert (val : Detection) : Nat → List Detection → Nat →
    Option (List Detection)
  | 0, _, _ => none
  | fuel + 1, l, last =>
    if last = 0 then none
    else
      match l[last - 1]? with
      | none => none
      | some next =>
        if detectionLt val next then unguardedLinearInsert val fuel (l.set last next) (last - 1)
        else if last < l.length then some (l.set last val) else none

/-- The branch `comp(i, first)` of `__insertion_sort`: `std::move_backward(first, i, i + 1)` and
`*first = val`, with `val` the element that was at `i`. -/
def moveToFirst (l : List Detection) (first i : Nat) (val : Detection) : List Detection :=
  l.take first ++ val :: (l.drop first).take (i - first) ++ l.drop (i + 1)

/-- The loop of `std::__insertion_sort(first, last, comp)` from position `i` on. -/
def insertionSortFrom (first last : Nat) : Nat → List Detection → Nat → Option (List Detection)
  | 0, _, _ => none
  | fuel + 1, l, i =>
    if last ≤ i then some l
    else
      match l[i]?, l[first]? with
      | some val, some head =>
        if detectionLt val head then
          insertionSortFrom first last fuel (moveToFirst l first i val) (i + 1)
        else
          match unguardedLinearInsert val (l.length + 1) l i with
          | none => none
          | some l' => insertionSortFrom first last fuel l' (i + 1)
      | _, _ => none

/-- The loop of `std::__unguarded_insertion_sort(first, last, comp)` from position `i` on. -/
def unguardedInsertionSortFrom (last : Nat) : Nat → List Detection → Nat →
    Option (List Detection)
  | 0, _, _ => none
  | fuel + 1, l, i =>
    if last ≤ i then some l
    else
      match l[i]? with
      | none => none
      | some val =>
        match unguardedLinearInsert val (l.length + 1) l i with
        | none => none
        | some l' => unguardedInsertionSortFrom last fuel l' (i + 1)

/-- `std::__final_insertion_sort(first, last, comp)` on the whole sequence. -/
def finalInsertionSort (l : List Detection) : Option (List Detection) :=
  if l.length > 16 then
    match insertionSortFrom 0 16 (l.length + 1) l 1 with
    | none => none
    | some l' => unguardedInsertionSortFrom l.length (l.length + 1) l' 16
  else if l.length = 0 then some l
  else insertionSortFrom 0 l.length (l.length + 1) l 1

/-- `std::__lg(n)`, the position of the highest set bit of `n`, computed with `fuel` halvings at
most. -/
def lgFrom : Nat → Nat → Nat
  | 0, _ => 0
  | fuel + 1, n => if n ≤ 1 then 0 else 1 + lgFrom fuel (n / 2)

/-- `std::sort(first, last)` of the GNU C++ library on the whole sequence:
`__introsort_loop(first, last, 2 * __lg(last - first))`, then `__final_insertion_sort`. -/
def gnuSortChecked (l : List Detection) : Option (List Detection) :=
  if l.length = 0 then some l
  else
    match introsortLoop (l.length + 1) l 0 l.length (2 * lgFrom l.length l.length) with
    | none => none
    | some l' => finalInsertionSort l'

/-- `gnuSortChecked` as a sorting routine; where the model gives no result the sequence is left
as it is. -/
def gnuSort (l : List Detection) : List Detection :=
  (gnuSortChecked l).getD l

/-! ## `Proctor::printClassifierStats` (proctor.cpp, lines 161-182) -/

/-- Lines 168-173: `rank` and `tie` after the first `mi` iterations of the loop over the
candidate models of one trial. -/
def rankTieLoop (row : Row) (votes : ℚ) : Nat → Nat × Nat
  | 0 => (1, 0)
  | mi + 1 =>
    let rt := rankTieLoop row votes mi
    if row mi > votes then (rt.1 + 1, rt.2)
    else if row mi = votes then (rt.1, rt.2 + 1)
    else rt

/-- Lines 165-173 for trial `ni`: `answer = scenes[ni].mi`, `votes = classifier[ni][answer]`, then
`rank` and `tie`.  Reading `classifier[ni][answer]` with `answer` outside the row is undefined. -/
def trialRankTie (cfg : Config) (p : ProctorState) (ni : Nat) : Option (Nat × Nat) :=
  let answer := p.scenes ni
  if 0 ≤ answer ∧ answer < (cfg.num_models : Int) then
    some (rankTieLoop (p.classifier ni) (p.classifier ni answer.toNat) cfg.num_models)
  else none

/-- Lines 164-178: `avg` and `area` after the first `ni` trials. -/
def classifierStatsLoop (cfg : Config) (p : ProctorState) : Nat → Option (ℚ × Int)
  | 0 => some (0, 0)
  | ni + 1 =>
    match classifierStatsLoop cfg p ni with
    | none => none
    | some acc =>
      match trialRankTie cfg p ni with
      | none => none
      | some rt =>
        some (acc.1 + ((rt.1 : ℚ) + (rt.2 : ℚ) / 2),
          acc.2 + ((cfg.num_models : Int) - (rt.1 : Int) + 1))

/-! ### Votes that may be NaN

The loop of lines 164-178 once more, over votes that may be NaN: `some q` is the vote with the
value `q`, `none` is NaN, with which both comparisons of lines 171-172 are false.  On a table
without NaN it computes what `classifierStatsLoop` computes. -/

/-- The `float` comparison `a > b` of line 171. -/
def voteGt (a b : Option ℚ) : Bool :=
  match a, b with
  | some x, some y => decide (x > y)
  | _, _ => false

/-- The `float` comparison `a == b` of line 172. -/
def voteEq (a b : Option ℚ) : Bool :=
  match a, b with
  | some x, some y => decide (x = y)
  | _, _ => false

/-- Lines 168-173 over votes that may be NaN. -/
def rankTieLoopNaN (row : Nat → Option ℚ) (votes : Option ℚ) : Nat → Nat × Nat
  | 0 => (1, 0)
  | mi + 1 =>
    let rt := rankTieLoopNaN row votes mi
    if voteGt (row mi) votes then (rt.1 + 1, rt.2)
    else if voteEq (row mi) votes then (rt.1, rt.2 + 1)
    else rt

/-- Lines 165-173 for trial `ni` over votes that may be NaN. -/
def trialRankTieNaN (cfg : Config) (scenes : Nat → Int) (classifier : Nat → Nat → Option ℚ)
    (ni : Nat) : Option (Nat × Nat) :=
  let answer := scenes ni
  if 0 ≤ answer ∧ answer < (cfg.num_models : Int) then
    some (rankTieLoopNaN (classifier ni) (classifier ni answer.toNat) cfg.num_models)
  else none

/-- Lines 164-178 over votes that may be NaN: `avg` and `area` after the first `ni` trials. -/
def classifierStatsLoopNaN (cfg : Config) (scenes : Nat → Int)
    (classifier : Nat → Nat → Option ℚ) : Nat → Option (ℚ × Int)
  | 0 => some (0, 0)
  | ni + 1 =>
    match classifierStatsLoopNaN cfg scenes classifier ni with
    | none => none
    | some acc =>
      match trialRankTieNaN cfg scenes classifier ni with
      | none => none
      | some rt =>
        some (acc.1 + ((rt.1 : ℚ) + (rt.2 : ℚ) / 2),
          acc.2 + ((cfg.num_models : Int) - (rt.1 : Int) + 1))

/-- The two numbers reported by `printClassifierStats`. -/
structure ClassifierStats where
  avg : ℚ
  area : Int
deriving DecidableEq

/-- `Proctor::printClassifierStats()`: `avg /= Config::num_trials`, then both values are
printed. -/
def printClassifierStats (cfg : Config) (p : ProctorState) : Option ClassifierStats :=
  (classifierStatsLoop cfg p cfg.num_trials).map fun acc =>
    { avg := acc.1 / (cfg.num_trials : ℚ), area := acc.2 }

/-! ## Concrete collaborators and states used in the examples -/

/-- A detector that fills both rows with the value 7 and then throws, on every call. -/
def failingDetector : Collaborators Unit Unit where
  srand := fun w _ => w
  getTestModel := fun w _ => ((), w)
  query := fun w _ _ _ =>
    { outcome := QueryOutcome.raised "no match", classifier := fun _ => 7,
      registration := fun _ => 7, world := w }

/-- A detector that guesses the id of the scene on even calls and throws on odd calls, after
writing 1 into every slot of both rows; the collaborators' state counts the calls. -/
def flakyDetector : Collaborators Nat Unit where
  srand := fun w _ => w
  getTestModel := fun w _ => ((), w)
  query := fun w scene _ _ =>
    { outcome := if w % 2 = 0 then QueryOutcome.guessed scene.id else QueryOutcome.raised "odd"
      classifier := fun _ => 1, registration := fun _ => 1, world := w + 1 }

/-- Collaborators that record, in order, the ids for which a test cloud was requested and the
ids of the scenes handed to the detector; the detector always guesses the scene id. -/
def recorder : Collaborators (List String × List String) Unit where
  srand := fun w _ => w
  getTestModel := fun w id => ((), (w.1 ++ [id], w.2))
  query := fun w scene cl rg =>
    { outcome := QueryOutcome.guessed scene.id, classifier := cl, registration := rg,
      world := (w.1, w.2 ++ [scene.id]) }

/-- A detector that keeps, call by call, the values it finds in slot 0 of the two rows it is
handed, leaves the rows as they are and guesses the id of the scene. -/
def probingDetector : Collaborators (List (ℚ × ℚ)) Unit where
  srand := fun w _ => w
  getTestModel := fun w _ => ((), w)
  query := fun w scene cl rg =>
    { outcome := QueryOutcome.guessed scene.id, classifier := cl, registration := rg,
      world := w ++ [(cl 0, rg 0)] }

/-- A harness state with the given catalog, `scenes[ni].mi = 0` for every trial, and the value 9
left in every slot of the tables by an earlier run. -/
def staleState (model_ids : List String) : ProctorState where
  model_ids := model_ids
  scenes := fun _ => 0
  confusion := fun _ _ => 9
  classifier := fun _ _ => 9
  registration := fun _ _ => 9

/-- A detector for the catalog "A", "B" that recognises every scene: it votes 1 for the model of
the scene and 0 for the other, registers distance 1 against the model of the scene only, and
guesses the id of the scene. -/
def perfectDetector : Collaborators Unit Unit where
  srand := fun w _ => w
  getTestModel := fun w _ => ((), w)
  query := fun w scene _ _ =>
    { outcome := QueryOutcome.guessed scene.id
      classifier := fun mi => if mi = ["A", "B"].indexOf scene.id then 1 else 0
      registration := fun mi => if mi = ["A", "B"].indexOf scene.id then 1 else 0
      world := w }

/-- A harness state for two trials over two models in which trial `ni` has true model
`ni mod 2`, the true model gets 5 votes and the other model 3, and registration was attempted
(with a non-zero distance) on model 1 only in trial 0 and on both models in trial 1. -/
def sampleStats : ProctorState where
  model_ids := ["A", "B"]
  scenes := fun ni => ((ni % 2 : Nat) : Int)
  confusion := fun _ _ => 0
  classifier := fun ni mi => if mi = ni % 2 then 5 else 3
  registration := fun ni mi => if ni = 0 then (if mi = 0 then 0 else 4) else 2

/-! ## `Proctor::train` (proctor.cpp, lines 43-68) and the timer -/

/-- The phases of the harness timer, named as in `printTimer`. -/
inductive Phase where
  | OBTAIN_CLOUD_TRAINING
  | OBTAIN_CLOUD_TESTING
  | DETECTOR_TRAIN
  | DETECTOR_TEST
deriving DecidableEq

/-- Modelled from the spec: the member `timer`, whose class is not part of the sources.  It holds
the clock reading taken by the last `start()` and one accumulated duration per phase. -/
structure Timer where
  started : Nat
  elapsed : Phase → Nat

/-- Modelled from the spec: `timer.start()` marks the current clock reading `now`. -/
def Timer.start (t : Timer) (now : Nat) : Timer :=
  { t with started := now }

/-- Modelled from the spec: `timer.stop(phase)` adds the time elapsed since the matching
`start()` to the accumulator of `phase`. -/
def Timer.stop (t : Timer) (now : Nat) (phase : Phase) : Timer :=
  { t with
    elapsed := fun ph => if ph = phase then t.elapsed ph + (now - t.started) else t.elapsed ph }

/-- A collaborator call that returned: its result, the collaborators' state afterwards and the
number of clock ticks the call took. -/
structure Returned (W α : Type) where
  value : α
  world : W
  duration : Nat

/-- The external collaborators of `train`: `source_->getModelIDs`, `source_->getTrainingModel`
and `detector.train`.  A call either returns or throws (`none`). -/
structure TrainCollaborators (W Cloud : Type) where
  getModelIDs : W → Option (Returned W (List String))
  getTrainingModel : W → String → Option (Returned W Cloud)
  train : W → Scene Cloud → Option (Returned W Unit)

/-- The state threaded through `train`: the catalog `model_ids`, the collaborators' state, the
clock and the timer.  Two totals are kept for the statements about timing: the time spent inside
`getTrainingModel` and the time spent inside `detector.train`. -/
structure TrainRun (W Cloud : Type) where
  model_ids : List String
  world : W
  clock : Nat
  timer : Timer
  acquiring : Nat
  training : Nat

/-- The body of the loop over the models (lines 53-63) for index `mi`: read `model_ids[mi]`
(undefined outside the catalog), acquire the training cloud, build the scene, train the detector
on it.  An exception thrown by a collaborator propagates. -/
def trainModel {W Cloud : Type} (c : TrainCollaborators W Cloud) (mi : Nat)
    (s : TrainRun W Cloud) : Option (TrainRun W Cloud) :=
  match s.model_ids[mi]? with
  | none => none
  | some model_id =>
    match c.getTrainingModel s.world model_id with
    | none => none
    | some got =>
      match c.train got.world ⟨model_id, got.value⟩ with
      | none => none
      | some done =>
        some
          { s with
            world := done.world
            clock := s.clock + got.duration + done.duration
            acquiring := s.acquiring + got.duration
            training := s.training + done.duration }

/-- The loop `for (int mi = 0; mi < k; mi++)` of `train`. -/
def trainModels {W Cloud : Type} (c : TrainCollaborators W Cloud) :
    Nat → TrainRun W Cloud → Option (TrainRun W Cloud)
  | 0, s => some s
  | k + 1, s =>
    match trainModels c k s with
    | none => none
    | some s' => trainModel c k s'

/-- `Proctor::train(detector)`: fetch the catalog, `timer.start()` (line 50), the loop over
`Config::num_models` models, `timer.stop(OBTAIN_CLOUD_TRAINING)` (line 65).  `now` is the clock
reading at entry. -/
def train {W Cloud : Type} (c : TrainCollaborators W Cloud) (cfg : Config) (w : W) (now : Nat)
    (timer : Timer) : Option (TrainRun W Cloud) :=
  match c.getModelIDs w with
  | none => none
  | some ids =>
    match trainModels c cfg.num_models
        { model_ids := ids.value
          world := ids.world
          clock := now + ids.duration
          timer := timer.start (now + ids.duration)
          acquiring := 0
          training := 0 } with
    | none => none
    | some s => some { s with timer := s.timer.stop s.clock Phase.OBTAIN_CLOUD_TRAINING }

/-- A model source with the catalog A, B, C whose clouds are the ids themselves and take 1 tick
to acquire, and a detector whose training takes 10 ticks; no call fails. -/
def steadyTrainer : TrainCollaborators Unit String where
  getModelIDs := fun w => some { value := ["A", "B", "C"], world := w, duration := 0 }
  getTrainingModel := fun w id => some { value := id, world := w, duration := 1 }
  train := fun w _ => some { value := (), world := w, duration := 10 }

/-- The collaborators `c` with a detector that also keeps, in the order of the calls, the scenes
that `detector.train` was called with: the second component of the collaborators' state.  The
first component evolves exactly as with `c`. -/
def observed {W Cloud : Type} (c : TrainCollaborators W Cloud) :
    TrainCollaborators (W × List (Scene Cloud)) Cloud where
  getModelIDs := fun w =>
    (c.getModelIDs w.1).map fun r =>
      { value := r.value, world := (r.world, w.2), duration := r.duration }
  getTrainingModel := fun w id =>
    (c.getTrainingModel w.1 id).map fun r =>
      { value := r.value, world := (r.world, w.2), duration := r.duration }
  train := fun w scene =>
    (c.train w.1 scene).map fun r =>
      { value := (), world := (r.world, w.2 ++ [scene]), duration := r.duration }

/-- The training protocol in the words of the spec (section 4.4, step 2): for each model id, in
catalog order, acquire a training scene for that id, then hand the scene to the detector's
training entry point.  Returns the scenes handed over, in order, and the collaborators' state
afterwards; `none` when a call fails. -/
def trainPerCatalog {W Cloud : Type} (c : TrainCollaborators W Cloud) :
    W → List String → Option (List (Scene Cloud) × W)
  | w, [] => some ([], w)
  | w, id :: rest =>
    match c.getTrainingModel w id with
    | none => none
    | some got =>
      match c.train got.world ⟨id, got.value⟩ with
      | none => none
      | some done =>
        match trainPerCatalog c done.world rest with
        | none => none
        | some r => some (⟨id, got.value⟩ :: r.1, r.2)

/-- A harness state for one trial over 17 models whose true model is model 0 and in which
registration gave the same distance, 1, against every model. -/
def tiedStats : ProctorState where
  model_ids := ["A"]
  scenes := fun _ => 0
  confusion := fun _ _ => 0
  classifier := fun _ _ => 0
  registration := fun _ _ => 1

/-- A harness state for two trials over two models like `sampleStats`, with pairwise different
registration distances 4, 2 and 3. -/
def distinctStats : ProctorState where
  model_ids := ["A", "B"]
  scenes := fun ni => ((ni % 2 : Nat) : Int)
  confusion := fun _ _ => 0
  classifier := fun ni mi => if mi = ni % 2 then 5 else 3
  registration := fun ni mi =>
    if ni = 0 then (if mi = 0 then 0 else 4) else (if mi = 0 then 2 else 3)

/-- A timer that has not accumulated anything yet. -/
def freshTimer : Timer where
  started := 0
  elapsed := fun _ => 0

/-- A classifier table for one trial over two models in which the detector left NaN as the vote
of model 0 and 3 as the vote of model 1. -/
def nanVotes : Nat → Nat → Option ℚ :=
  fun _ mi => if mi = 0 then none else some 3

/-- The classifier table of `sampleStats` as a table of votes none of which is NaN. -/
def sampleVotes : Nat → Nat → Option ℚ :=
  fun ni mi => some (sampleStats.classifier ni mi)

/-! ## The sampler -/

theorem take_succ_set (l : List Nat) (i v : Nat) (h : i < l.length) :
    (l.set i v).take (i + 1) = l.take i ++ [v] := by
  induction l generalizing i with
  | nil => simp at h
  | cons x xs ih =>
    cases i with
    | zero => simp
    | succ j =>
      simp only [List.length_cons, Nat.succ_lt_succ_iff] at h
      simp [List.set, ih j h]

/-- Loop invariant of the pick loop: the live part `bag[0 .. edge)` holds pairwise distinct
values below `n`, none of which has been chosen yet, and the chosen values `subset[0 .. i)` are
pairwise distinct and below `n`.  Under it the loop runs to completion and the invariant carries
over to the returned sequence. -/
theorem randomSubsetLoop_spec (rand : Nat → Nat) (n : Nat) :
    ∀ (k i : Nat) (bag : List Nat) (edge : Nat) (subset : List Nat),
      k ≤ edge → edge ≤ bag.length → i + k ≤ subset.length →
      (∀ a b, a < edge → b < edge → bag[a]? = bag[b]? → a = b) →
      (∀ a v, a < edge → bag[a]? = some v → v < n ∧ v ∉ subset.take i) →
      (subset.take i).Nodup → (∀ x ∈ subset.take i, x < n) →
      ∃ out, randomSubsetLoop rand k i bag edge subset = some out ∧
        out.length = subset.length ∧ (out.take (i + k)).Nodup ∧
        ∀ x ∈ out.take (i + k), x < n := by
  intro k
  induction k with
  | zero =>
    intro i bag edge subset _ _ _ _ _ hnd hlt
    exact ⟨subset, rfl, rfl, by simpa using hnd, by simpa using hlt⟩
  | succ k ih =>
    intro i bag edge subset hk hedge hlen hinj hbag hnd hlt
    have hepos : edge ≠ 0 := by omega
    have hpick : rand i % edge < edge := Nat.mod_lt _ (Nat.pos_of_ne_zero hepos)
    have hpl : rand i % edge < bag.length := lt_of_lt_of_le hpick hedge
    have hel : edge - 1 < bag.length := by omega
    have hi : i < subset.length := by omega
    obtain ⟨v, hv⟩ : ∃ v, bag[rand i % edge]? = some v := ⟨_, List.getElem?_eq_getElem hpl⟩
    obtain ⟨w, hw⟩ : ∃ w, bag[edge - 1]? = some w := ⟨_, List.getElem?_eq_getElem hel⟩
    have hstep : randomSubsetLoop rand (k + 1) i bag edge subset
        = randomSubsetLoop rand k (i + 1) (bag.set (rand i % edge) w) (edge - 1)
            (subset.set i v) := by
      simp [randomSubsetLoop, hepos, hv, hw, hi]
    have htake := take_succ_set subset i v hi
    have hvprop := hbag _ v hpick hv
    have key : ∀ a, a < edge - 1 →
        (bag.set (rand i % edge) w)[a]? = bag[if rand i % edge = a then edge - 1 else a]? := by
      intro a ha
      rw [List.getElem?_set]
      by_cases hpa : rand i % edge = a
      · simp [hpa, hw]; omega
      · simp [hpa]
    obtain ⟨out, hout, hl, hn, hx⟩ := ih (i + 1) (bag.set (rand i % edge) w) (edge - 1)
      (subset.set i v) (by omega) (by simp; omega) (by simp; omega)
      (by
        intro a b ha hb hab
        rw [key a ha, key b hb] at hab
        have := hinj _ _ (by split <;> omega) (by split <;> omega) hab
        split at this <;> split at this <;> omega)
      (by
        intro a x ha hax
        rw [key a ha] at hax
        have hidx : (if rand i % edge = a then edge - 1 else a) < edge := by split <;> omega
        have hxp := hbag _ x hidx hax
        refine ⟨hxp.1, ?_⟩
        rw [htake, List.mem_append, not_or]
        refine ⟨hxp.2, ?_⟩
        simp only [List.mem_singleton]
        rintro rfl
        have := hinj _ _ hidx hpick (hax.trans hv.symm)
        split at this <;> omega)
      (by
        rw [htake]
        exact List.Nodup.append hnd (List.nodup_singleton v)
          (by
            intro x hx1 hx2
            simp only [List.mem_singleton] at hx2
            subst hx2
            exact hvprop.2 hx1))
      (by
        rw [htake]
        intro x hx
        rcases List.mem_append.1 hx with h | h
        · exact hlt x h
        · simp only [List.mem_singleton] at h
          subst h
          exact hvprop.1)
    refine ⟨out, hstep.trans hout, by simpa using hl, ?_, ?_⟩
    · have : i + (k + 1) = i + 1 + k := by omega
      rw [this]; exact hn
    · have : i + (k + 1) = i + 1 + k := by omega
      rw [this]; exact hx

/-- C1: for all `n ≥ r ≥ 0` and every sequence of values returned by `rand()`,
`randomSubset(n, r)` returns a sequence of exactly `r` values that are pairwise distinct and
each lie in `[0, n)`. -/
theorem randomSubset_distinct_in_range (rand : Nat → Nat) (n r : Nat) (h : r ≤ n) :
    ∃ out, randomSubset rand n r = some out ∧ out.length = r ∧ out.Nodup ∧
      ∀ x ∈ out, x < n := by
  obtain ⟨out, hout, hl, hn, hx⟩ := randomSubsetLoop_spec rand n r 0 (List.range n) n
    (List.replicate r 0) h (by simp) (by simp)
    (by
      intro a b ha hb hab
      rw [List.getElem?_range ha, List.getElem?_range hb] at hab
      exact Option.some.inj hab)
    (by
      intro a v ha hav
      rw [List.getElem?_range ha] at hav
      cases hav
      exact ⟨ha, by simp⟩)
    (by simp) (by simp)
  have hlen : out.length = r := by simpa using hl
  have ht : out.take (0 + r) = out := by
    rw [Nat.zero_add, ← hlen]; exact List.take_length out
  rw [ht] at hn hx
  exact ⟨out, hout, hlen, hn, hx⟩

/-- Witness for C1: five values, three picks, `rand()` returning 3, 10, 17. -/
theorem randomSubset_distinct_in_range_witness :
    3 ≤ 5 ∧ ∃ out, randomSubset (fun i => 7 * i + 3) 5 3 = some out ∧ out.length = 3 ∧
      out.Nodup ∧ ∀ x ∈ out, x < 5 :=
  ⟨by decide, randomSubset_distinct_in_range (fun i => 7 * i + 3) 5 3 (by decide)⟩

/-! ## The testing protocol -/

theorem total_incrementCells (cells : List (String × String × Nat)) (truth guess : String) :
    ((incrementCells cells truth guess).map fun c => c.2.2).sum
      = (cells.map fun c => c.2.2).sum + 1 := by
  induction cells with
  | nil => simp [incrementCells]
  | cons c rest ih =>
    obtain ⟨t, g, n⟩ := c
    by_cases h : t = truth ∧ g = guess
    · simp [incrementCells, h]; omega
    · simp [incrementCells, h, ih]; omega

theorem total_increment (m : ConfusionMatrix) (truth guess : String) :
    (m.increment truth guess).total = m.total + 1 :=
  total_incrementCells m.cells truth guess

theorem truthId_of_ne_nil (model_ids : List String) (h : model_ids ≠ []) (ni : Nat) :
    ∃ hlt : ni % model_ids.length < model_ids.length,
      truthId model_ids ni = some (model_ids.get ⟨ni % model_ids.length, hlt⟩) := by
  have hpos : 0 < model_ids.length := List.length_pos.2 h
  have hlt : ni % model_ids.length < model_ids.length := Nat.mod_lt _ hpos
  refine ⟨hlt, ?_⟩
  have hne : model_ids.length ≠ 0 := by omega
  simp [truthId, hne, List.getElem?_eq_getElem hlt]

theorem trialQuery_of_ne_nil {W Cloud : Type} (c : Collaborators W Cloud) (ni : Nat)
    (s : TestRun W) (h : s.proctor.model_ids ≠ []) :
    ∃ r, trialQuery c ni s = some r := by
  obtain ⟨_, hid⟩ := truthId_of_ne_nil s.proctor.model_ids h ni
  simp [trialQuery, hid]

/-- The effect of one trial in terms of what its query left behind. -/
theorem testTrial_eq {W Cloud : Type} (c : Collaborators W Cloud) (ni : Nat) (s : TestRun W)
    (r : String × QueryResult W) (hr : trialQuery c ni s = some r) :
    ∃ s', testTrial c ni s = some s' ∧
      s'.proctor.model_ids = s.proctor.model_ids ∧
      s'.proctor.scenes = s.proctor.scenes ∧
      (∀ n, n ≠ ni → s'.proctor.classifier n = s.proctor.classifier n ∧
        s'.proctor.registration n = s.proctor.registration n) ∧
      (∀ g, r.2.outcome = QueryOutcome.guessed g →
        s'.confusion_matrix = s.confusion_matrix.increment r.1 g ∧
        s'.proctor.classifier ni = r.2.classifier ∧
        s'.proctor.registration ni = r.2.registration) ∧
      (∀ e, r.2.outcome = QueryOutcome.raised e →
        s'.confusion_matrix = s.confusion_matrix ∧
        (∀ mi, s'.proctor.classifier ni mi = 0 ∧ s'.proctor.registration ni mi = 0)) := by
  obtain ⟨truth_id, res⟩ := r
  cases hout : res.outcome with
  | guessed g =>
    cases htt : testTrial c ni s with
    | none => simp [testTrial, hr, hout] at htt
    | some s' =>
      simp only [testTrial, hr, hout, Option.some.injEq] at htt
      subst htt
      refine ⟨_, rfl, rfl, rfl, ?_, ?_, ?_⟩
      · intro n hn
        simp [writeRow, hn]
      · intro g' hg
        cases hg
        simp [writeRow]
      · intro e he
        cases he
  | raised e =>
    cases htt : testTrial c ni s with
    | none => simp [testTrial, hr, hout] at htt
    | some s' =>
      simp only [testTrial, hr, hout, Option.some.injEq] at htt
      subst htt
      refine ⟨_, rfl, rfl, rfl, ?_, ?_, ?_⟩
      · intro n hn
        simp [writeRow, zeroRow, hn]
      · intro g' hg
        cases hg
      · intro e' _
        simp [zeroRow]

theorem testTrials_succ {W Cloud : Type} (c : Collaborators W Cloud) (k : Nat)
    (s sk : TestRun W) (h : testTrials c k s = some sk) :
    testTrials c (k + 1) s = testTrial c k sk := by
  simp [testTrials, h]

/-- With a non-empty catalog the trial loop runs to completion, whatever the detector does, and
it changes neither the catalog nor `scenes`. -/
theorem testTrials_completes {W Cloud : Type} (c : Collaborators W Cloud) (s : TestRun W)
    (h : s.proctor.model_ids ≠ []) (k : Nat) :
    ∃ sk, testTrials c k s = some sk ∧ sk.proctor.model_ids = s.proctor.model_ids ∧
      sk.proctor.scenes = s.proctor.scenes := by
  induction k with
  | zero => exact ⟨s, rfl, rfl, rfl⟩
  | succ k ih =>
    obtain ⟨sk, hsk, hids, hsc⟩ := ih
    obtain ⟨r, hr⟩ := trialQuery_of_ne_nil c k sk (by rw [hids]; exact h)
    obtain ⟨s', hs', hids', hsc', _⟩ := testTrial_eq c k sk r hr
    exact ⟨s', by rw [testTrials_succ c k s sk hsk, hs'], hids'.trans hids, hsc'.trans hsc⟩

/-- Rows of trials that have already run are not touched by later trials. -/
theorem testTrials_rows_kept {W Cloud : Type} (c : Collaborators W Cloud) (s : TestRun W)
    (j : Nat) (sj : TestRun W) (hj : testTrials c j s = some sj) :
    ∀ d sk, testTrials c (j + d) s = some sk →
      ∀ n, n < j → sk.proctor.classifier n = sj.proctor.classifier n ∧
        sk.proctor.registration n = sj.proctor.registration n := by
  intro d
  induction d with
  | zero =>
    intro sk hsk n _
    rw [Nat.add_zero, hj] at hsk
    cases hsk
    exact ⟨rfl, rfl⟩
  | succ d ih =>
    intro sk hsk n hn
    have hstep : testTrials c (j + d + 1) s = some sk := hsk
    cases hmid : testTrials c (j + d) s with
    | none => simp [testTrials, hmid] at hstep
    | some sm =>
      rw [testTrials_succ c (j + d) s sm hmid] at hstep
      cases hq : trialQuery c (j + d) sm with
      | none => simp [testTrial, hq] at hstep
      | some r =>
        obtain ⟨s', hs', _, _, hframe, _⟩ := testTrial_eq c (j + d) sm r hq
        rw [hs'] at hstep
        cases hstep
        have hne : n ≠ j + d := by omega
        have h1 := hframe n hne
        have h2 := ih sm hmid n hn
        exact ⟨h1.1.trans h2.1, h1.2.trans h2.2⟩

theorem trialQuery_result {W Cloud : Type} (c : Collaborators W Cloud) (ni : Nat)
    (s : TestRun W) (r : String × QueryResult W) (hr : trialQuery c ni s = some r) :
    truthId s.proctor.model_ids ni = some r.1 ∧
      r.2 = c.query (c.getTestModel s.world r.1).2 ⟨r.1, (c.getTestModel s.world r.1).1⟩
        (s.proctor.classifier ni) (s.proctor.registration ni) := by
  unfold trialQuery at hr
  cases hid : truthId s.proctor.model_ids ni with
  | none => simp [hid] at hr
  | some truth_id =>
    simp only [hid, Option.some.injEq] at hr
    subst hr
    exact ⟨rfl, rfl⟩

/-- The running total of the confusion matrix: after `k` trials it is the number of trials among
them whose query returned a guess. -/
theorem testTrials_total {W Cloud : Type} (c : Collaborators W Cloud) (p : ProctorState) (w : W)
    (seed : Nat) (hcat : p.model_ids ≠ []) (k : Nat) :
    ∃ sk, testTrials c k (testInit c p w seed) = some sk ∧
      sk.confusion_matrix.total
        = ((List.range k).filter (trialSucceeded c p w seed)).length := by
  induction k with
  | zero => exact ⟨_, rfl, rfl⟩
  | succ k ih =>
    obtain ⟨sk, hsk, htot⟩ := ih
    obtain ⟨sk2, hsk2, hids, _⟩ := testTrials_completes c (testInit c p w seed) hcat k
    rw [hsk] at hsk2
    cases hsk2
    obtain ⟨r, hr⟩ := trialQuery_of_ne_nil c k sk (by rw [hids]; exact hcat)
    obtain ⟨s', hs', _, _, _, hok, hbad⟩ := testTrial_eq c k sk r hr
    refine ⟨s', by rw [testTrials_succ c k _ sk hsk, hs'], ?_⟩
    rw [List.range_succ, List.filter_append, List.length_append, ← htot]
    cases hout : r.2.outcome with
    | guessed g =>
      have hsucc : trialSucceeded c p w seed k = true := by
        simp [trialSucceeded, trialOutcome, hsk, hr, hout]
      rw [(hok g hout).1, total_increment]
      simp [hsucc]
    | raised e =>
      have hsucc : trialSucceeded c p w seed k = false := by
        simp [trialSucceeded, trialOutcome, hsk, hr, hout]
      rw [(hbad e hout).1]
      simp [hsucc]

/-- C2: with a detector whose query raises on every call (and a non-empty catalog), a full run of
`test` completes, the confusion matrix has total 0, and every row `classifier[ni]` and
`registration[ni]` with `ni < num_trials` is all-zero, whatever the tables held before and
whatever the detector wrote before raising. -/
theorem test_all_queries_raise {W Cloud : Type} (c : Collaborators W Cloud) (cfg : Config)
    (p : ProctorState) (w : W) (seed : Nat) (hcat : p.model_ids ≠ [])
    (hraise : ∀ w sc cl rg, ∃ e, (c.query w sc cl rg).outcome = QueryOutcome.raised e) :
    ∃ out, test c cfg p w seed = some out ∧ out.confusion_matrix.total = 0 ∧
      ∀ ni, ni < cfg.num_trials → ∀ mi, mi < cfg.num_models →
        out.proctor.classifier ni mi = 0 ∧ out.proctor.registration ni mi = 0 := by
  have hloop : ∀ k, ∃ sk, testTrials c k (testInit c p w seed) = some sk ∧
      sk.proctor.model_ids = p.model_ids ∧ sk.confusion_matrix = ⟨[]⟩ ∧
      ∀ ni, ni < k → ∀ mi, sk.proctor.classifier ni mi = 0 ∧
        sk.proctor.registration ni mi = 0 := by
    intro k
    induction k with
    | zero => exact ⟨_, rfl, rfl, rfl, fun ni hni => absurd hni (Nat.not_lt_zero ni)⟩
    | succ k ih =>
      obtain ⟨sk, hsk, hids, hcm, hrows⟩ := ih
      obtain ⟨r, hr⟩ := trialQuery_of_ne_nil c k sk (by rw [hids]; exact hcat)
      obtain ⟨s', hs', hids', _, hframe, _, hbad⟩ := testTrial_eq c k sk r hr
      obtain ⟨e, he⟩ : ∃ e, r.2.outcome = QueryOutcome.raised e := by
        rw [(trialQuery_result c k sk r hr).2]
        exact hraise _ _ _ _
      refine ⟨s', by rw [testTrials_succ c k _ sk hsk, hs'], hids'.trans hids,
        ((hbad e he).1).trans hcm, ?_⟩
      intro ni hni mi
      by_cases hk : ni = k
      · subst hk
        exact (hbad e he).2 mi
      · have hold := hrows ni (by omega) mi
        have hfr := hframe ni hk
        rw [hfr.1, hfr.2]
        exact hold
  obtain ⟨out, hout, _, hcm, hrows⟩ := hloop cfg.num_trials
  refine ⟨out, hout, ?_, fun ni hni mi _ => hrows ni hni mi⟩
  rw [hcm]
  rfl

/-- Witness for C2: three trials against `failingDetector`, starting from tables full of
stale values. -/
theorem test_all_queries_raise_witness :
    ∃ out, test failingDetector ⟨3, 2⟩ (staleState ["A", "B"]) () 0 = some out ∧
      out.confusion_matrix.total = 0 ∧
      ∀ ni, ni < 3 → ∀ mi, mi < 2 →
        out.proctor.classifier ni mi = 0 ∧ out.proctor.registration ni mi = 0 :=
  test_all_queries_raise failingDetector ⟨3, 2⟩ (staleState ["A", "B"]) () 0
    (by simp [staleState]) (fun _ _ _ _ => ⟨"no match", rfl⟩)

/-- C3: for every behaviour of the detector (and a non-empty catalog) the confusion matrix built
by `test` has `total()` equal to the number of trials whose query returned a guess; each such
trial contributes one `increment(truth_id, guessed_id)` and a trial whose query raised leaves the
matrix as it was.  Hence `total() ≤ num_trials`, with strict inequality exactly when some trial
failed. -/
theorem test_confusion_total {W Cloud : Type} (c : Collaborators W Cloud) (cfg : Config)
    (p : ProctorState) (w : W) (seed : Nat) (hcat : p.model_ids ≠ []) :
    ∃ out, test c cfg p w seed = some out ∧
      out.confusion_matrix.total
        = ((List.range cfg.num_trials).filter (trialSucceeded c p w seed)).length ∧
      (∀ ni s s', testTrials c ni (testInit c p w seed) = some s → testTrial c ni s = some s' →
        (∀ g, trialOutcome c p w seed ni = some (QueryOutcome.guessed g) →
          ∃ truth_id, truthId p.model_ids ni = some truth_id ∧
            s'.confusion_matrix = s.confusion_matrix.increment truth_id g) ∧
        (∀ e, trialOutcome c p w seed ni = some (QueryOutcome.raised e) →
          s'.confusion_matrix = s.confusion_matrix)) ∧
      out.confusion_matrix.total ≤ cfg.num_trials ∧
      (out.confusion_matrix.total < cfg.num_trials ↔
        ∃ ni, ni < cfg.num_trials ∧ trialSucceeded c p w seed ni = false) := by
  obtain ⟨out, hout, htot⟩ := testTrials_total c p w seed hcat cfg.num_trials
  refine ⟨out, hout, htot, ?_, ?_, ?_⟩
  · intro ni s s' hs hs'
    obtain ⟨s2, hs2, hids, _⟩ := testTrials_completes c (testInit c p w seed) hcat ni
    rw [hs] at hs2
    cases hs2
    obtain ⟨r, hr⟩ := trialQuery_of_ne_nil c ni s (by rw [hids]; exact hcat)
    obtain ⟨s3, hs3, _, _, _, hok, hbad⟩ := testTrial_eq c ni s r hr
    rw [hs'] at hs3
    cases hs3
    have hoc : trialOutcome c p w seed ni = some r.2.outcome := by
      simp [trialOutcome, hs, hr]
    have hid := (trialQuery_result c ni s r hr).1
    rw [hids] at hid
    constructor
    · intro g hg
      rw [hoc] at hg
      exact ⟨r.1, hid, (hok g (Option.some.inj hg)).1⟩
    · intro e he
      rw [hoc] at he
      exact (hbad e (Option.some.inj he)).1
  · rw [htot]
    calc ((List.range cfg.num_trials).filter (trialSucceeded c p w seed)).length
        ≤ (List.range cfg.num_trials).length := List.length_filter_le _ _
      _ = cfg.num_trials := List.length_range _
  · rw [htot]
    have hiff := @List.length_filter_lt_length_iff_exists Nat (trialSucceeded c p w seed)
      (List.range cfg.num_trials)
    rw [List.length_range] at hiff
    rw [hiff]
    constructor
    · rintro ⟨ni, hmem, hni⟩
      exact ⟨ni, List.mem_range.1 hmem, by simpa using hni⟩
    · rintro ⟨ni, hlt, hni⟩
      exact ⟨ni, List.mem_range.2 hlt, by simp [hni]⟩

/-- Witness for C3: four trials against `flakyDetector`, which fails every second query. -/
theorem test_confusion_total_witness :
    ["A", "B", "C"] ≠ [] ∧
    ∃ out, test flakyDetector ⟨4, 3⟩ (staleState ["A", "B", "C"]) 0 0 = some out ∧
      out.confusion_matrix.total
        = ((List.range 4).filter
            (trialSucceeded flakyDetector (staleState ["A", "B", "C"]) 0 0)).length ∧
      (∀ ni s s', testTrials flakyDetector ni
            (testInit flakyDetector (staleState ["A", "B", "C"]) 0 0) = some s →
          testTrial flakyDetector ni s = some s' →
        (∀ g, trialOutcome flakyDetector (staleState ["A", "B", "C"]) 0 0 ni
              = some (QueryOutcome.guessed g) →
          ∃ truth_id, truthId ["A", "B", "C"] ni = some truth_id ∧
            s'.confusion_matrix = s.confusion_matrix.increment truth_id g) ∧
        (∀ e, trialOutcome flakyDetector (staleState ["A", "B", "C"]) 0 0 ni
              = some (QueryOutcome.raised e) →
          s'.confusion_matrix = s.confusion_matrix)) ∧
      out.confusion_matrix.total ≤ 4 ∧
      (out.confusion_matrix.total < 4 ↔
        ∃ ni, ni < 4 ∧ trialSucceeded flakyDetector (staleState ["A", "B", "C"]) 0 0 ni = false) :=
  ⟨by simp, test_confusion_total flakyDetector ⟨4, 3⟩ (staleState ["A", "B", "C"]) 0 0
    (by simp [staleState])⟩

theorem testTrial_query_of_some {W Cloud : Type} (c : Collaborators W Cloud) (ni : Nat)
    (s s' : TestRun W) (h : testTrial c ni s = some s') :
    ∃ r, trialQuery c ni s = some r := by
  cases hq : trialQuery c ni s with
  | none => simp [testTrial, hq] at h
  | some r => exact ⟨r, rfl⟩

/-- No trial changes the catalog or `scenes`. -/
theorem testTrials_members_kept {W Cloud : Type} (c : Collaborators W Cloud) (s : TestRun W) :
    ∀ k sk, testTrials c k s = some sk →
      sk.proctor.model_ids = s.proctor.model_ids ∧ sk.proctor.scenes = s.proctor.scenes := by
  intro k
  induction k with
  | zero =>
    intro sk hsk
    cases hsk
    exact ⟨rfl, rfl⟩
  | succ k ih =>
    intro sk hsk
    cases hmid : testTrials c k s with
    | none => simp [testTrials, hmid] at hsk
    | some sm =>
      rw [testTrials_succ c k s sm hmid] at hsk
      obtain ⟨r, hr⟩ := testTrial_query_of_some c k sm sk hsk
      obtain ⟨s', hs', hids, hsc, _⟩ := testTrial_eq c k sm r hr
      rw [hsk] at hs'
      cases hs'
      exact ⟨hids.trans (ih sm hmid).1, hsc.trans (ih sm hmid).2⟩

theorem ne_nil_of_truthId {model_ids : List String} {ni : Nat} {id : String}
    (h : truthId model_ids ni = some id) : model_ids ≠ [] := by
  rintro rfl
  simp [truthId] at h

/-- C4: for every trial `ni` of `test` whose query raises, `classifier[ni]` and
`registration[ni]` are all-zero when `test` returns, whatever the detector wrote into them before
raising; and the handling of trial `ni` leaves the rows of every other trial as they were. -/
theorem failed_trial_rows_zero {W Cloud : Type} (c : Collaborators W Cloud) (cfg : Config)
    (p : ProctorState) (w : W) (seed : Nat) (ni : Nat) (hni : ni < cfg.num_trials) (e : String)
    (hfail : trialOutcome c p w seed ni = some (QueryOutcome.raised e)) :
    ∃ out, test c cfg p w seed = some out ∧
      (∀ mi, mi < cfg.num_models →
        out.proctor.classifier ni mi = 0 ∧ out.proctor.registration ni mi = 0) ∧
      ∀ s s', testTrials c ni (testInit c p w seed) = some s → testTrial c ni s = some s' →
        ∀ n, n ≠ ni → s'.proctor.classifier n = s.proctor.classifier n ∧
          s'.proctor.registration n = s.proctor.registration n := by
  cases hs : testTrials c ni (testInit c p w seed) with
  | none => simp [trialOutcome, hs] at hfail
  | some s =>
    cases hr : trialQuery c ni s with
    | none => simp [trialOutcome, hs, hr] at hfail
    | some r =>
      have hout : r.2.outcome = QueryOutcome.raised e := by
        simpa [trialOutcome, hs, hr] using hfail
      have hcat : (testInit c p w seed).proctor.model_ids ≠ [] := by
        rw [← (testTrials_members_kept c _ ni s hs).1]
        exact ne_nil_of_truthId (trialQuery_result c ni s r hr).1
      obtain ⟨s', hs', _, _, hframe, _, hbad⟩ := testTrial_eq c ni s r hr
      obtain ⟨out, hrun, _⟩ := testTrials_completes c (testInit c p w seed) hcat cfg.num_trials
      have hnext : testTrials c (ni + 1) (testInit c p w seed) = some s' := by
        rw [testTrials_succ c ni _ s hs, hs']
      have hsplit : cfg.num_trials = ni + 1 + (cfg.num_trials - (ni + 1)) := by omega
      have hkept := testTrials_rows_kept c (testInit c p w seed) (ni + 1) s' hnext
        (cfg.num_trials - (ni + 1)) out (by rw [← hsplit]; exact hrun) ni (Nat.lt_succ_self ni)
      refine ⟨out, hrun, ?_, ?_⟩
      · intro mi _
        rw [hkept.1, hkept.2]
        exact (hbad e hout).2 mi
      · intro t t' ht ht' n hn
        cases ht
        rw [hs'] at ht'
        cases ht'
        exact hframe n hn

/-- Witness for C4: trial 1 of a run against `flakyDetector` fails. -/
theorem failed_trial_rows_zero_witness :
    trialOutcome flakyDetector (staleState ["A", "B", "C"]) 0 0 1
        = some (QueryOutcome.raised "odd") ∧
    ∃ out, test flakyDetector ⟨4, 3⟩ (staleState ["A", "B", "C"]) 0 0 = some out ∧
      (∀ mi, mi < 3 →
        out.proctor.classifier 1 mi = 0 ∧ out.proctor.registration 1 mi = 0) ∧
      ∀ s s', testTrials flakyDetector 1
            (testInit flakyDetector (staleState ["A", "B", "C"]) 0 0) = some s →
          testTrial flakyDetector 1 s = some s' →
        ∀ n, n ≠ 1 → s'.proctor.classifier n = s.proctor.classifier n ∧
          s'.proctor.registration n = s.proctor.registration n :=
  ⟨by decide, failed_trial_rows_zero flakyDetector ⟨4, 3⟩ (staleState ["A", "B", "C"]) 0 0 1
    (by decide) "odd" (by decide)⟩

/-- C5: for every non-empty catalog and every trial index `ni`, the ground-truth id that `test`
uses for trial `ni` is `catalog[ni mod catalogSize]`; for the catalog A, B, C and 7 trials the
ground-truth sequence, as requested from the model source and as handed to the detector, is
A, B, C, A, B, C, A. -/
theorem test_truth_round_robin {W Cloud : Type} (c : Collaborators W Cloud) (p : ProctorState)
    (w : W) (seed : Nat) (hcat : p.model_ids ≠ []) (ni : Nat) :
    (∃ hlt : ni % p.model_ids.length < p.model_ids.length,
      trialTruth c p w seed ni = some (p.model_ids.get ⟨ni % p.model_ids.length, hlt⟩)) ∧
    (List.range 7).map (truthId ["A", "B", "C"])
      = [some "A", some "B", some "C", some "A", some "B", some "C", some "A"] ∧
    (test recorder ⟨7, 3⟩ (staleState ["A", "B", "C"]) ([], []) 0).map (fun out => out.world)
      = some (["A", "B", "C", "A", "B", "C", "A"], ["A", "B", "C", "A", "B", "C", "A"]) := by
  refine ⟨?_, by decide, by decide⟩
  obtain ⟨s, hs, hids, _⟩ := testTrials_completes c (testInit c p w seed) hcat ni
  obtain ⟨r, hr⟩ := trialQuery_of_ne_nil c ni s (by rw [hids]; exact hcat)
  obtain ⟨hlt, hid⟩ := truthId_of_ne_nil p.model_ids hcat ni
  refine ⟨hlt, ?_⟩
  have h1 := (trialQuery_result c ni s r hr).1
  rw [hids] at h1
  have h2 : truthId (testInit c p w seed).proctor.model_ids ni = truthId p.model_ids ni := rfl
  rw [h2, hid] at h1
  simp only [trialTruth, hs, hr, Option.map_some']
  exact h1.symm

/-- Witness for C5: trial 6 over the catalog A, B, C wraps around to A. -/
theorem test_truth_round_robin_witness :
    ["A", "B", "C"] ≠ [] ∧
    trialTruth recorder (staleState ["A", "B", "C"]) ([], []) 0 6 = some "A" := by
  refine ⟨by simp, ?_⟩
  obtain ⟨_, h⟩ := (test_truth_round_robin recorder (staleState ["A", "B", "C"]) ([], []) 0
    (by simp [staleState]) 6).1
  exact h

/-- C8 (what the code does): `test` never assigns `scenes[ni].mi`.  With the catalog A, B, two
trials and `scenes` holding 0 in every slot, trial 1 is run on model B (catalog index 1), yet
after `test` the statistics still read `scenes[1].mi = 0`: although `perfectDetector` registered
and voted for exactly the right model in both trials, the precision-recall walk emits only the
point of trial 0 and the classifier statistics rank trial 1 against model 0 (rank 2). -/
theorem test_leaves_scenes_stale :
    trialTruth perfectDetector (staleState ["A", "B"]) () 0 1 = some "B" ∧
    ["A", "B"].indexOf "B" = 1 % 2 ∧
    (test perfectDetector ⟨2, 2⟩ (staleState ["A", "B"]) () 0).map
        (fun out => (out.proctor.scenes 1,
          printPrecisionRecall sortByDistance ⟨2, 2⟩ out.proctor,
          trialRankTie ⟨2, 2⟩ out.proctor 1))
      = some (0, [⟨1, 1 / 2, 1⟩], some (2, 1)) := by
  refine ⟨by decide, by decide, ?_⟩
  simp [test, testTrials, testTrial, trialQuery, truthId, testInit, staleState, perfectDetector,
    printPrecisionRecall, sortedDetections, detections, sortByDistance, prWalk, isCorrect,
    trialRankTie, rankTieLoop, writeRow, zeroRow, List.range, List.range.loop, List.flatMap,
    List.indexOf, List.findIdx, List.findIdx.go]

/-! ## The precision-recall derivation -/

/-- What the walk emits: its `k`-th point (counting from 0) is triggered by the correct detection
at the position `j` before which exactly `k` correct detections lie, and carries the counter value
`correct + k + 1`, the position `di + j` and the distance of that detection. -/
theorem prWalk_getElem? (cfg : Config) (scenes : Nat → Int) :
    ∀ (l : List Detection) (di correct k : Nat) (pt : PRPoint),
      (prWalk cfg scenes l di correct)[k]? = some pt →
      ∃ j d, l[j]? = some d ∧ isCorrect scenes d = true ∧
        (l.take j).countP (isCorrect scenes) = k ∧
        pt.recallValue = ((correct + k + 1 : Nat) : ℚ) / (cfg.num_trials : ℚ) ∧
        pt.precisionValue = ((correct + k + 1 : Nat) : ℚ) / ((di + j + 1 : Nat) : ℚ) ∧
        pt.distance = d.distance := by
  intro l
  induction l with
  | nil =>
    intro di correct k pt h
    simp [prWalk] at h
  | cons d rest ih =>
    intro di correct k pt h
    by_cases hc : isCorrect scenes d = true
    · simp only [prWalk, hc, if_true] at h
      cases k with
      | zero =>
        simp only [List.getElem?_cons_zero, Option.some.injEq] at h
        subst h
        exact ⟨0, d, by simp, hc, rfl, rfl, rfl, rfl⟩
      | succ k =>
        simp only [List.getElem?_cons_succ] at h
        obtain ⟨j, d', hj, hd', hcnt, hrec, hprec, hdist⟩ := ih (di + 1) (correct + 1) k pt h
        refine ⟨j + 1, d', by simpa using hj, hd', ?_, ?_, ?_, hdist⟩
        · simp [List.take_succ_cons, List.countP_cons, hc, hcnt]
        · rw [hrec]
          congr 2
          omega
        · rw [hprec]
          congr 2 <;> omega
    · simp only [prWalk, hc] at h
      obtain ⟨j, d', hj, hd', hcnt, hrec, hprec, hdist⟩ := ih (di + 1) correct k pt h
      refine ⟨j + 1, d', by simpa using hj, hd', ?_, hrec, ?_, hdist⟩
      · simp [List.take_succ_cons, List.countP_cons, hc, hcnt]
      · rw [hprec]
        congr 2
        omega

theorem prWalk_length (cfg : Config) (scenes : Nat → Int) :
    ∀ (l : List Detection) (di correct : Nat),
      (prWalk cfg scenes l di correct).length = l.countP (isCorrect scenes) := by
  intro l
  induction l with
  | nil => intro di correct; rfl
  | cons d rest ih =>
    intro di correct
    by_cases hc : isCorrect scenes d = true
    · simp [prWalk, hc, ih, List.countP_cons]
    · simp [prWalk, hc, ih, List.countP_cons]

theorem countP_take_succ_of_getElem? {α : Type} (q : α → Bool) (l : List α) (j : Nat) (d : α)
    (hj : l[j]? = some d) (hq : q d = true) :
    (l.take (j + 1)).countP q = (l.take j).countP q + 1 := by
  induction l generalizing j with
  | nil => simp at hj
  | cons x xs ih =>
    cases j with
    | zero =>
      simp only [List.getElem?_cons_zero, Option.some.injEq] at hj
      subst hj
      simp [List.countP_cons, hq]
    | succ j =>
      simp only [List.getElem?_cons_succ] at hj
      simp only [List.take_succ_cons, List.countP_cons]
      rw [ih j hj]
      omega

/-- The point at index `k` of the output of `printPrecisionRecall`, traced back to the correct
detection that triggered it. -/
theorem printPrecisionRecall_point (sort : List Detection → List Detection) (cfg : Config)
    (p : ProctorState) (k : Nat) (pt : PRPoint)
    (h : (printPrecisionRecall sort cfg p)[k]? = some pt) :
    ∃ di d, (sortedDetections sort cfg p)[di]? = some d ∧ isCorrect p.scenes d = true ∧
      ((sortedDetections sort cfg p).take (di + 1)).countP (isCorrect p.scenes) = k + 1 ∧
      pt.recallValue = ((k + 1 : Nat) : ℚ) / (cfg.num_trials : ℚ) ∧
      pt.precisionValue = ((k + 1 : Nat) : ℚ) / ((di + 1 : Nat) : ℚ) ∧
      pt.distance = d.distance := by
  obtain ⟨j, d, hj, hd, hcnt, hrec, hprec, hdist⟩ :=
    prWalk_getElem? cfg p.scenes (sortedDetections sort cfg p) 0 0 k pt h
  refine ⟨j, d, hj, hd, ?_, ?_, ?_, hdist⟩
  · rw [countP_take_succ_of_getElem? _ _ j d hj hd, hcnt]
  · rw [hrec]
    congr 2
    omega
  · rw [hprec]
    congr 2 <;> omega

/-- C6: the `k`-th point emitted by `printPrecisionRecall` (counting from 1, here index `k`
counting from 0) has recall exactly `(k+1) / num_trials` and precision exactly
`(k+1) / (di+1)`, where `di` is the 0-based position in the sorted detection list of the correct
detection that triggered it and `k+1` is the number of correct detections among the positions
`0, ..., di`; the number of points is the number of correct detections, and the emitted recall
values are non-decreasing. -/
theorem printPrecisionRecall_points (sort : List Detection → List Detection) (cfg : Config)
    (p : ProctorState) :
    (printPrecisionRecall sort cfg p).length
        = (sortedDetections sort cfg p).countP (isCorrect p.scenes) ∧
    (∀ (k : Nat) (pt : PRPoint), (printPrecisionRecall sort cfg p)[k]? = some pt →
      ∃ di d, (sortedDetections sort cfg p)[di]? = some d ∧ isCorrect p.scenes d = true ∧
        ((sortedDetections sort cfg p).take (di + 1)).countP (isCorrect p.scenes) = k + 1 ∧
        pt.recallValue = ((k + 1 : Nat) : ℚ) / (cfg.num_trials : ℚ) ∧
        pt.precisionValue = ((k + 1 : Nat) : ℚ) / ((di + 1 : Nat) : ℚ) ∧
        pt.distance = d.distance) ∧
    (∀ (j k : Nat) (pj pk : PRPoint), j ≤ k → (printPrecisionRecall sort cfg p)[j]? = some pj →
      (printPrecisionRecall sort cfg p)[k]? = some pk → pj.recallValue ≤ pk.recallValue) := by
  have hpt := printPrecisionRecall_point sort cfg p
  refine ⟨prWalk_length cfg p.scenes _ 0 0, hpt, ?_⟩
  intro j k pj pk hjk hj hk
  obtain ⟨_, _, _, _, _, hrj, _⟩ := hpt j pj hj
  obtain ⟨_, _, _, _, _, hrk, _⟩ := hpt k pk hk
  rw [hrj, hrk]
  apply div_le_div_of_nonneg_right _ (Nat.cast_nonneg _)
  exact_mod_cast Nat.succ_le_succ hjk

theorem mem_detections (cfg : Config) (registration : Table) (d : Detection) :
    d ∈ detections cfg registration ↔
      d.ni < cfg.num_trials ∧ d.mi < cfg.num_models ∧
        registration d.ni d.mi = d.distance ∧ d.distance ≠ 0 := by
  simp only [detections, List.mem_flatMap, List.mem_filterMap, List.mem_range]
  constructor
  · rintro ⟨ni, hni, mi, hmi, h⟩
    by_cases hz : registration ni mi = 0
    · simp [hz] at h
    · simp only [hz, if_false, Option.some.injEq] at h
      subst h
      exact ⟨hni, hmi, rfl, hz⟩
  · rintro ⟨hni, hmi, hreg, hz⟩
    refine ⟨d.ni, hni, d.mi, hmi, ?_⟩
    rw [hreg]
    simp [hz]

/-- C7: the detection list contains `(ni, mi, d)` exactly when `registration[ni][mi] = d` (for a
slot of the table) and `d` is non-zero.  In particular, for a trial `ni` whose registration value
at the slot `m` of its true model is 0, no detection of trial `ni` in the sorted list passes the
test of line 149, so none increments `correct`, and every emitted point is triggered by a
detection of another trial. -/
theorem detections_nonzero_only (sort : List Detection → List Detection)
    (hperm : ∀ l, List.Perm (sort l) l) (cfg : Config) (p : ProctorState) (ni m : Nat)
    (hm : p.scenes ni = (m : Int)) (hz : p.registration ni m = 0) :
    (∀ d, d ∈ detections cfg p.registration ↔
      d.ni < cfg.num_trials ∧ d.mi < cfg.num_models ∧
        p.registration d.ni d.mi = d.distance ∧ d.distance ≠ 0) ∧
    (∀ d, d ∈ sortedDetections sort cfg p → d.ni = ni → isCorrect p.scenes d = false) ∧
    (∀ (k : Nat) (pt : PRPoint), (printPrecisionRecall sort cfg p)[k]? = some pt →
      ∃ (di : Nat) (d : Detection), (sortedDetections sort cfg p)[di]? = some d ∧ isCorrect p.scenes d = true ∧
        d.ni ≠ ni ∧ pt.distance = d.distance) := by
  have hno : ∀ d, d ∈ sortedDetections sort cfg p → d.ni = ni →
      isCorrect p.scenes d = false := by
    intro d hd hdni
    have hmem : d ∈ detections cfg p.registration := (hperm _).mem_iff.1 hd
    obtain ⟨_, _, hreg, hnz⟩ := (mem_detections cfg p.registration d).1 hmem
    by_contra hcor
    have hc : isCorrect p.scenes d = true := by simpa using hcor
    simp only [isCorrect, decide_eq_true_eq, hdni, hm] at hc
    have hmi : d.mi = m := by exact_mod_cast hc
    rw [hdni, hmi, hz] at hreg
    exact hnz hreg.symm
  refine ⟨mem_detections cfg p.registration, hno, ?_⟩
  intro k pt h
  obtain ⟨di, d, hdi, hd, _, _, _, hdist⟩ := printPrecisionRecall_point sort cfg p k pt h
  refine ⟨di, d, hdi, hd, ?_, hdist⟩
  intro hdni
  have := hno d (List.getElem?_mem hdi) hdni
  rw [hd] at this
  cases this

/-- Witness for C7: in `sampleStats` trial 0 has true model 0 and `registration[0][0] = 0`. -/
theorem detections_nonzero_only_witness :
    sampleStats.scenes 0 = ((0 : Nat) : Int) ∧ sampleStats.registration 0 0 = 0 ∧
    (∀ d, d ∈ detections ⟨2, 2⟩ sampleStats.registration ↔
      d.ni < 2 ∧ d.mi < 2 ∧ sampleStats.registration d.ni d.mi = d.distance ∧ d.distance ≠ 0) ∧
    (∀ d, d ∈ sortedDetections sortByDistance ⟨2, 2⟩ sampleStats → d.ni = 0 →
      isCorrect sampleStats.scenes d = false) ∧
    (∀ (k : Nat) (pt : PRPoint), (printPrecisionRecall sortByDistance ⟨2, 2⟩ sampleStats)[k]? = some pt →
      ∃ (di : Nat) (d : Detection), (sortedDetections sortByDistance ⟨2, 2⟩ sampleStats)[di]? = some d ∧
        isCorrect sampleStats.scenes d = true ∧ d.ni ≠ 0 ∧ pt.distance = d.distance) :=
  ⟨by decide, by decide,
    detections_nonzero_only sortByDistance (fun l => List.perm_insertionSort _ l) ⟨2, 2⟩
      sampleStats 0 0 (by decide) (by decide)⟩

/-! ## The classifier rank derivation -/

/-- After `k` iterations `rank` is 1 plus the number of models among the first `k` with strictly
more votes, and `tie` the number of models among them with exactly equal votes. -/
theorem rankTieLoop_eq (row : Row) (votes : ℚ) (k : Nat) :
    rankTieLoop row votes k
      = (1 + ((List.range k).filter fun mi => decide (row mi > votes)).length,
          ((List.range k).filter fun mi => decide (row mi = votes)).length) := by
  induction k with
  | zero => rfl
  | succ k ih =>
    rw [List.range_succ, List.filter_append, List.filter_append, List.length_append,
      List.length_append]
    simp only [rankTieLoop, ih]
    by_cases hgt : row k > votes
    · have hne : ¬ row k = votes := ne_of_gt hgt
      simp [hgt, hne]
      omega
    · by_cases heq : row k = votes
      · simp [hgt, heq]
      · simp [hgt, heq]

/-- C9: for every classifier table and every trial whose true model index `m` lies in
`[0, num_models)`, the rank computed by `printClassifierStats` is 1 plus the number of candidate
models with strictly greater votes than the true model, and lies in `[1, num_models]`. -/
theorem trialRankTie_rank_bounds (cfg : Config) (p : ProctorState) (ni m : Nat)
    (hm : p.scenes ni = (m : Int)) (hlt : m < cfg.num_models) :
    ∃ rank tie, trialRankTie cfg p ni = some (rank, tie) ∧
      rank = 1 + ((List.range cfg.num_models).filter fun mi =>
        decide (p.classifier ni mi > p.classifier ni m)).length ∧
      1 ≤ rank ∧ rank ≤ cfg.num_models := by
  have hrange : (0 : Int) ≤ (m : Int) ∧ (m : Int) < (cfg.num_models : Int) :=
    ⟨Int.natCast_nonneg m, by exact_mod_cast hlt⟩
  have hval : trialRankTie cfg p ni
      = some (rankTieLoop (p.classifier ni) (p.classifier ni m) cfg.num_models) := by
    simp only [trialRankTie, hm, hrange, and_self, if_true, Int.toNat_ofNat]
  rw [hval, rankTieLoop_eq]
  refine ⟨_, _, rfl, rfl, Nat.le_add_right 1 _, ?_⟩
  have hlt2 : ((List.range cfg.num_models).filter fun mi =>
      decide (p.classifier ni mi > p.classifier ni m)).length
        < (List.range cfg.num_models).length := by
    rw [List.length_filter_lt_length_iff_exists]
    exact ⟨m, List.mem_range.2 hlt, by simp⟩
  rw [List.length_range] at hlt2
  omega

/-- Witness for C9: trial 1 of `sampleStats`, whose true model is model 1 of 2. -/
theorem trialRankTie_rank_bounds_witness :
    sampleStats.scenes 1 = ((1 : Nat) : Int) ∧ 1 < 2 ∧
    ∃ rank tie, trialRankTie ⟨2, 2⟩ sampleStats 1 = some (rank, tie) ∧
      rank = 1 + ((List.range 2).filter fun mi =>
        decide (sampleStats.classifier 1 mi > sampleStats.classifier 1 1)).length ∧
      1 ≤ rank ∧ rank ≤ 2 :=
  ⟨by decide, by decide, trialRankTie_rank_bounds ⟨2, 2⟩ sampleStats 1 1 (by decide) (by decide)⟩

/-- When the true model `m` of a trial has strictly more votes than every other candidate, the
loop ends with `rank = 1` and `tie = 1`: the only tie is the slot of the true model itself. -/
theorem rankTieLoop_strict_max (row : Row) (m bound : Nat)
    (hmax : ∀ mi, mi < bound → mi ≠ m → row mi < row m) :
    ∀ k, k ≤ bound → rankTieLoop row (row m) k = (1, if m < k then 1 else 0) := by
  intro k
  induction k with
  | zero => intro _; rfl
  | succ k ih =>
    intro hk
    simp only [rankTieLoop, ih (Nat.le_of_succ_le hk)]
    by_cases hkm : k = m
    · subst hkm
      simp
    · have hless := hmax k (by omega) hkm
      have h1 : ¬ row k > row m := not_lt.2 (le_of_lt hless)
      have h2 : ¬ row k = row m := ne_of_lt hless
      simp only [h1, h2, if_false]
      by_cases hmk : m < k
      · have : m < k + 1 := by omega
        simp [hmk, this]
      · have : ¬ m < k + 1 := by omega
        simp [hmk, this]

/-- The accumulators of `printClassifierStats` over a run in which the true model has the strictly
maximum vote in every trial: every trial adds `1 + 1/2` to `avg` and `num_models` to `area`. -/
theorem classifierStatsLoop_strict_max (cfg : Config) (p : ProctorState)
    (hmax : ∀ ni, ni < cfg.num_trials → ∃ m : Nat, m < cfg.num_models ∧ p.scenes ni = (m : Int) ∧
      ∀ mi : Nat, mi < cfg.num_models → mi ≠ m → p.classifier ni mi < p.classifier ni m) :
    ∀ k, k ≤ cfg.num_trials →
      classifierStatsLoop cfg p k
        = some ((3 / 2 : ℚ) * (k : ℚ), (cfg.num_models : Int) * (k : Int)) := by
  intro k
  induction k with
  | zero => intro _; simp [classifierStatsLoop]
  | succ k ih =>
    intro hk
    obtain ⟨m, hm, hsc, hrow⟩ := hmax k (by omega)
    have hrange : (0 : Int) ≤ (m : Int) ∧ (m : Int) < (cfg.num_models : Int) :=
      ⟨Int.natCast_nonneg m, by exact_mod_cast hm⟩
    have hrt : trialRankTie cfg p k = some (1, 1) := by
      simp only [trialRankTie, hsc, hrange, and_self, if_true, Int.toNat_ofNat]
      rw [rankTieLoop_strict_max (p.classifier k) m cfg.num_models hrow cfg.num_models
        (Nat.le_refl _)]
      simp [hm]
    simp only [classifierStatsLoop, ih (Nat.le_of_succ_le hk), hrt]
    congr 1
    refine Prod.ext ?_ ?_
    · simp only
      push_cast
      ring
    · simp only
      push_cast
      ring

/-- The average reported by `printClassifierStats` over a run of at least one trial in which the
true model has the strictly maximum vote in every trial is `3/2`, and the area is
`num_models * num_trials`. -/
theorem printClassifierStats_strict_max (cfg : Config) (p : ProctorState)
    (hpos : 0 < cfg.num_trials)
    (hmax : ∀ ni, ni < cfg.num_trials → ∃ m : Nat, m < cfg.num_models ∧ p.scenes ni = (m : Int) ∧
      ∀ mi : Nat, mi < cfg.num_models → mi ≠ m → p.classifier ni mi < p.classifier ni m) :
    printClassifierStats cfg p
      = some { avg := 3 / 2, area := (cfg.num_models : Int) * (cfg.num_trials : Int) } := by
  have hne : (cfg.num_trials : ℚ) ≠ 0 := by exact_mod_cast (Nat.pos_iff_ne_zero.1 hpos)
  simp only [printClassifierStats,
    classifierStatsLoop_strict_max cfg p hmax cfg.num_trials (Nat.le_refl _), Option.map_some']
  congr 2
  field_simp
  ring

/-- C10 (what the code does): in `sampleStats` the true model has 5 votes and the other model 3
in both trials, so the true model has the strictly maximum vote in every trial; the loop computes
`rank = 1` and `tie = 1` for each trial and `printClassifierStats` reports the average `3/2`,
not `1`. -/
theorem printClassifierStats_perfect_run_avg :
    (∀ ni : Nat, ni < 2 → ∃ m : Nat, m < 2 ∧ sampleStats.scenes ni = (m : Int) ∧
      ∀ mi : Nat, mi < 2 → mi ≠ m → sampleStats.classifier ni mi < sampleStats.classifier ni m) ∧
    trialRankTie ⟨2, 2⟩ sampleStats 0 = some (1, 1) ∧
    trialRankTie ⟨2, 2⟩ sampleStats 1 = some (1, 1) ∧
    printClassifierStats ⟨2, 2⟩ sampleStats = some { avg := 3 / 2, area := 4 } ∧
    (3 / 2 : ℚ) ≠ 1 := by
  have hmax : ∀ ni : Nat, ni < 2 → ∃ m : Nat, m < 2 ∧ sampleStats.scenes ni = (m : Int) ∧
      ∀ mi : Nat, mi < 2 → mi ≠ m → sampleStats.classifier ni mi < sampleStats.classifier ni m := by
    intro ni hni
    refine ⟨ni % 2, Nat.mod_lt _ (by decide), rfl, ?_⟩
    intro mi _ hmi
    have h2 : ni % 2 % 2 = ni % 2 := Nat.mod_mod _ _
    simp only [sampleStats, hmi, h2, if_true, if_false]
    norm_num
  refine ⟨hmax, by decide, by decide, ?_, by norm_num⟩
  exact printClassifierStats_strict_max ⟨2, 2⟩ sampleStats (by decide) hmax

theorem trialRankTie_of_scene (cfg : Config) (p : ProctorState) (ni m : Nat)
    (hm : p.scenes ni = (m : Int)) (hlt : m < cfg.num_models) :
    trialRankTie cfg p ni
      = some (rankTieLoop (p.classifier ni) (p.classifier ni m) cfg.num_models) := by
  have hrange : (0 : Int) ≤ (m : Int) ∧ (m : Int) < (cfg.num_models : Int) :=
    ⟨Int.natCast_nonneg m, by exact_mod_cast hlt⟩
  simp only [trialRankTie, hm, hrange, and_self, if_true, Int.toNat_ofNat]

theorem one_le_rank (row : Row) (votes : ℚ) (k : Nat) : 1 ≤ (rankTieLoop row votes k).1 := by
  rw [rankTieLoop_eq]
  exact Nat.le_add_right 1 _

theorem classifierStatsLoop_succ (cfg : Config) (p : ProctorState) (k : Nat) (acc : ℚ × Int)
    (rt : Nat × Nat) (hacc : classifierStatsLoop cfg p k = some acc)
    (hrt : trialRankTie cfg p k = some rt) :
    classifierStatsLoop cfg p (k + 1)
      = some (acc.1 + ((rt.1 : ℚ) + (rt.2 : ℚ) / 2),
          acc.2 + ((cfg.num_models : Int) - (rt.1 : Int) + 1)) := by
  simp only [classifierStatsLoop, hacc, hrt]

/-- With every true model index inside the row, the accumulation loop completes, and the area
after `k` trials is at most `num_models * k`, since every trial adds
`num_models - rank + 1 ≤ num_models`. -/
theorem classifierStatsLoop_area_le (cfg : Config) (p : ProctorState)
    (hrange : ∀ ni, ni < cfg.num_trials →
      ∃ m : Nat, m < cfg.num_models ∧ p.scenes ni = (m : Int)) :
    ∀ k, k ≤ cfg.num_trials →
      ∃ acc, classifierStatsLoop cfg p k = some acc ∧
        acc.2 ≤ (cfg.num_models : Int) * (k : Int) := by
  intro k
  induction k with
  | zero => intro _; exact ⟨(0, 0), rfl, by simp⟩
  | succ k ih =>
    intro hk
    obtain ⟨acc, hacc, hle⟩ := ih (Nat.le_of_succ_le hk)
    obtain ⟨m, hm, hsc⟩ := hrange k (by omega)
    have hrt := trialRankTie_of_scene cfg p k m hsc hm
    have hrank := one_le_rank (p.classifier k) (p.classifier k m) cfg.num_models
    refine ⟨_, classifierStatsLoop_succ cfg p k acc _ hacc hrt, ?_⟩
    simp only
    have h1 : ((1 : Nat) : Int) ≤
        (((rankTieLoop (p.classifier k) (p.classifier k m) cfg.num_models).1 : Nat) : Int) := by
      exact_mod_cast hrank
    push_cast
    push_cast at h1
    nlinarith

/-- C11: for every classifier table (with the true model index of every trial inside the row)
the area accumulated by `printClassifierStats` is at most `num_models * num_trials`, and it
equals `num_models * num_trials` whenever the true model has the strictly maximum vote in every
trial. -/
theorem printClassifierStats_area_bound (cfg : Config) (p : ProctorState)
    (hrange : ∀ ni, ni < cfg.num_trials →
      ∃ m : Nat, m < cfg.num_models ∧ p.scenes ni = (m : Int)) :
    ∃ st, printClassifierStats cfg p = some st ∧
      st.area ≤ (cfg.num_models : Int) * (cfg.num_trials : Int) ∧
      ((∀ ni, ni < cfg.num_trials → ∃ m : Nat, m < cfg.num_models ∧ p.scenes ni = (m : Int) ∧
          ∀ mi : Nat, mi < cfg.num_models → mi ≠ m → p.classifier ni mi < p.classifier ni m) →
        st.area = (cfg.num_models : Int) * (cfg.num_trials : Int)) := by
  obtain ⟨acc, hacc, hle⟩ :=
    classifierStatsLoop_area_le cfg p hrange cfg.num_trials (Nat.le_refl _)
  have hst : printClassifierStats cfg p
      = some { avg := acc.1 / (cfg.num_trials : ℚ), area := acc.2 } := by
    simp only [printClassifierStats, hacc, Option.map_some']
  refine ⟨_, hst, hle, ?_⟩
  intro hmax
  have h := classifierStatsLoop_strict_max cfg p hmax cfg.num_trials (Nat.le_refl _)
  rw [hacc] at h
  have h2 := Option.some.inj h
  simp only [h2]

/-- Witness for C11: `sampleStats`, two trials over two models. -/
theorem printClassifierStats_area_bound_witness :
    (∀ ni, ni < 2 → ∃ m : Nat, m < 2 ∧ sampleStats.scenes ni = (m : Int)) ∧
    ∃ st, printClassifierStats ⟨2, 2⟩ sampleStats = some st ∧
      st.area ≤ ((2 : Nat) : Int) * ((2 : Nat) : Int) ∧
      ((∀ ni, ni < 2 → ∃ m : Nat, m < 2 ∧ sampleStats.scenes ni = (m : Int) ∧
          ∀ mi : Nat, mi < 2 → mi ≠ m →
            sampleStats.classifier ni mi < sampleStats.classifier ni m) →
        st.area = ((2 : Nat) : Int) * ((2 : Nat) : Int)) :=
  have hr : ∀ ni, ni < 2 → ∃ m : Nat, m < 2 ∧ sampleStats.scenes ni = (m : Int) :=
    fun ni _ => ⟨ni % 2, Nat.mod_lt _ (by decide), rfl⟩
  ⟨hr, printClassifierStats_area_bound ⟨2, 2⟩ sampleStats hr⟩

/-- On a table without NaN the loop over votes that may be NaN is the loop of the harness. -/
theorem rankTieLoopNaN_finite (row : Row) (votes : ℚ) (k : Nat) :
    rankTieLoopNaN (fun mi => some (row mi)) (some votes) k = rankTieLoop row votes k := by
  induction k with
  | zero => rfl
  | succ k ih =>
    simp only [rankTieLoopNaN, rankTieLoop, ih, voteGt, voteEq]
    by_cases hgt : row k > votes
    · simp [hgt]
    · by_cases heq : row k = votes
      · simp [hgt, heq]
      · simp [hgt, heq]

theorem classifierStatsLoopNaN_finite (cfg : Config) (p : ProctorState) (k : Nat) :
    classifierStatsLoopNaN cfg p.scenes (fun ni mi => some (p.classifier ni mi)) k
      = classifierStatsLoop cfg p k := by
  induction k with
  | zero => rfl
  | succ k ih =>
    have hrt : trialRankTieNaN cfg p.scenes (fun ni mi => some (p.classifier ni mi)) k
        = trialRankTie cfg p k := by
      simp only [trialRankTieNaN, trialRankTie]
      split
      · rw [rankTieLoopNaN_finite]
      · rfl
    simp only [classifierStatsLoopNaN, classifierStatsLoop, ih, hrt]

/-- Once the loop has passed a slot whose vote compares equal to `votes`, `tie` is at least 1. -/
theorem one_le_tie_of_equal_slot (row : Nat → Option ℚ) (votes : Option ℚ) (m : Nat)
    (heq : voteEq (row m) votes = true) (hgt : voteGt (row m) votes = false) :
    ∀ k, m < k → 1 ≤ (rankTieLoopNaN row votes k).2 := by
  intro k
  induction k with
  | zero => intro h; omega
  | succ k ih =>
    intro hk
    by_cases hmk : m = k
    · subst hmk
      simp [rankTieLoopNaN, heq, hgt]
    · have hprev := ih (by omega)
      simp only [rankTieLoopNaN]
      split
      · exact hprev
      · split
        · exact Nat.le_succ_of_le hprev
        · exact hprev

/-- With the true model index of every earlier trial inside the row, the accumulation loop over
votes that may be NaN completes. -/
theorem classifierStatsLoopNaN_completes (cfg : Config) (scenes : Nat → Int)
    (classifier : Nat → Nat → Option ℚ) :
    ∀ k, (∀ n, n < k → ∃ m : Nat, m < cfg.num_models ∧ scenes n = (m : Int)) →
      ∃ acc, classifierStatsLoopNaN cfg scenes classifier k = some acc := by
  intro k
  induction k with
  | zero => intro _; exact ⟨(0, 0), rfl⟩
  | succ k ih =>
    intro h
    obtain ⟨acc, hacc⟩ := ih (fun n hn => h n (by omega))
    obtain ⟨m, hm, hsc⟩ := h k (Nat.lt_succ_self k)
    have hrange : (0 : Int) ≤ (m : Int) ∧ (m : Int) < (cfg.num_models : Int) :=
      ⟨Int.natCast_nonneg m, by exact_mod_cast hm⟩
    have hrt : trialRankTieNaN cfg scenes classifier k
        = some (rankTieLoopNaN (classifier k) (classifier k m) cfg.num_models) := by
      simp only [trialRankTieNaN, hsc, hrange, and_self, if_true, Int.toNat_ofNat]
    cases hnext : classifierStatsLoopNaN cfg scenes classifier (k + 1) with
    | none => simp [classifierStatsLoopNaN, hacc, hrt] at hnext
    | some acc' => exact ⟨acc', rfl⟩

/-- C16 (as amended): for every classifier table, NaN votes included, and every trial whose true
model index `m` lies in `[0, num_models)` and whose vote at the slot of the true model is not
NaN, the tie count computed by `printClassifierStats` is at least 1 (the slot of the true model
is compared with itself); in a run whose earlier trials have their true model index inside the
row, the accumulation reaches the trial and the trial adds `rank + tie/2`, at least
`rank + 1/2`, to `avg`.  The loop over votes that may be NaN is the loop of the harness on every
table without NaN; on `sampleStats` both give `avg = 3` and `area = 4` before the division. -/
theorem trialRankTie_self_tie (cfg : Config) (scenes : Nat → Int)
    (classifier : Nat → Nat → Option ℚ) (ni m : Nat) (v : ℚ)
    (hprev : ∀ n, n < ni → ∃ m' : Nat, m' < cfg.num_models ∧ scenes n = (m' : Int))
    (hm : scenes ni = (m : Int)) (hlt : m < cfg.num_models)
    (hv : classifier ni m = some v) :
    (∀ (p : ProctorState) (k : Nat),
      classifierStatsLoopNaN cfg p.scenes (fun n mi => some (p.classifier n mi)) k
        = classifierStatsLoop cfg p k) ∧
    classifierStatsLoop ⟨2, 2⟩ sampleStats 2 = some (3, 4) ∧
    classifierStatsLoopNaN ⟨2, 2⟩ sampleStats.scenes sampleVotes 2 = some (3, 4) ∧
    ∃ rank tie acc acc', trialRankTieNaN cfg scenes classifier ni = some (rank, tie) ∧
      1 ≤ tie ∧
      classifierStatsLoopNaN cfg scenes classifier ni = some acc ∧
      classifierStatsLoopNaN cfg scenes classifier (ni + 1) = some acc' ∧
      acc'.1 = acc.1 + ((rank : ℚ) + (tie : ℚ) / 2) ∧
      acc.1 + ((rank : ℚ) + 1 / 2) ≤ acc'.1 := by
  have hrt0 : trialRankTie ⟨2, 2⟩ sampleStats 0 = some (1, 1) := by decide
  have hrt1 : trialRankTie ⟨2, 2⟩ sampleStats 1 = some (1, 1) := by decide
  have hn0 : trialRankTieNaN ⟨2, 2⟩ sampleStats.scenes sampleVotes 0 = some (1, 1) := by decide
  have hn1 : trialRankTieNaN ⟨2, 2⟩ sampleStats.scenes sampleVotes 1 = some (1, 1) := by decide
  refine ⟨classifierStatsLoopNaN_finite cfg, ?_, ?_, ?_⟩
  · simp only [classifierStatsLoop, hrt0, hrt1]
    norm_num
  · simp only [classifierStatsLoopNaN, hn0, hn1]
    norm_num
  have hrange : (0 : Int) ≤ (m : Int) ∧ (m : Int) < (cfg.num_models : Int) :=
    ⟨Int.natCast_nonneg m, by exact_mod_cast hlt⟩
  have hrt : trialRankTieNaN cfg scenes classifier ni
      = some (rankTieLoopNaN (classifier ni) (classifier ni m) cfg.num_models) := by
    simp only [trialRankTieNaN, hm, hrange, and_self, if_true, Int.toNat_ofNat]
  have htie : 1 ≤ (rankTieLoopNaN (classifier ni) (classifier ni m) cfg.num_models).2 :=
    one_le_tie_of_equal_slot (classifier ni) (classifier ni m) m
      (by simp [voteEq, hv]) (by simp [voteGt, hv]) cfg.num_models hlt
  obtain ⟨acc, hacc⟩ := classifierStatsLoopNaN_completes cfg scenes classifier ni hprev
  have hstep : classifierStatsLoopNaN cfg scenes classifier (ni + 1)
      = some (acc.1 + (((rankTieLoopNaN (classifier ni) (classifier ni m) cfg.num_models).1 : ℚ)
            + ((rankTieLoopNaN (classifier ni) (classifier ni m) cfg.num_models).2 : ℚ) / 2),
          acc.2 + ((cfg.num_models : Int)
            - ((rankTieLoopNaN (classifier ni) (classifier ni m) cfg.num_models).1 : Int)
            + 1)) := by
    simp only [classifierStatsLoopNaN, hacc, hrt]
  refine ⟨(rankTieLoopNaN (classifier ni) (classifier ni m) cfg.num_models).1,
    (rankTieLoopNaN (classifier ni) (classifier ni m) cfg.num_models).2, acc, _, hrt, htie,
    hacc, hstep, rfl, ?_⟩
  simp only
  have h1 : (1 : ℚ)
      ≤ (((rankTieLoopNaN (classifier ni) (classifier ni m) cfg.num_models).2 : Nat) : ℚ) := by
    exact_mod_cast htie
  linarith

/-- Witness for C16 (as amended): trial 1 of `sampleStats` (votes 3 and 5, true model 1), after
trial 0 whose true model is model 0. -/
theorem trialRankTie_self_tie_witness :
    (∀ n, n < 1 → ∃ m' : Nat, m' < 2 ∧ sampleStats.scenes n = (m' : Int)) ∧
    sampleStats.scenes 1 = ((1 : Nat) : Int) ∧ 1 < 2 ∧ sampleVotes 1 1 = some 5 ∧
    (∀ (p : ProctorState) (k : Nat),
      classifierStatsLoopNaN ⟨2, 2⟩ p.scenes (fun n mi => some (p.classifier n mi)) k
        = classifierStatsLoop ⟨2, 2⟩ p k) ∧
    classifierStatsLoop ⟨2, 2⟩ sampleStats 2 = some (3, 4) ∧
    classifierStatsLoopNaN ⟨2, 2⟩ sampleStats.scenes sampleVotes 2 = some (3, 4) ∧
    ∃ rank tie acc acc', trialRankTieNaN ⟨2, 2⟩ sampleStats.scenes sampleVotes 1
        = some (rank, tie) ∧
      1 ≤ tie ∧
      classifierStatsLoopNaN ⟨2, 2⟩ sampleStats.scenes sampleVotes 1 = some acc ∧
      classifierStatsLoopNaN ⟨2, 2⟩ sampleStats.scenes sampleVotes (1 + 1) = some acc' ∧
      acc'.1 = acc.1 + ((rank : ℚ) + (tie : ℚ) / 2) ∧
      acc.1 + ((rank : ℚ) + 1 / 2) ≤ acc'.1 :=
  have hprev : ∀ n, n < 1 → ∃ m' : Nat, m' < 2 ∧ sampleStats.scenes n = (m' : Int) :=
    fun n _ => ⟨n % 2, Nat.mod_lt _ (by decide), rfl⟩
  ⟨hprev, by decide, by decide, by decide,
    trialRankTie_self_tie ⟨2, 2⟩ sampleStats.scenes sampleVotes 1 1 5 hprev (by decide)
      (by decide) (by decide)⟩

/-- C16 (the claim as stated fails): one trial over two models whose true model is model 0, with
NaN as the vote of model 0 and 3 as the vote of model 1 (`nanVotes`).  Neither `>` nor `==`
holds between NaN and any vote, so the loop ends with `rank = 1` and `tie = 0`, and the trial
adds `1` to `avg`, less than `rank + 1/2`. -/
theorem trialRankTie_nan_no_tie :
    nanVotes 0 0 = none ∧
    trialRankTieNaN ⟨1, 2⟩ (fun _ => 0) nanVotes 0 = some (1, 0) ∧
    ¬ (∃ rank tie, trialRankTieNaN ⟨1, 2⟩ (fun _ => 0) nanVotes 0 = some (rank, tie) ∧
        1 ≤ tie) ∧
    classifierStatsLoopNaN ⟨1, 2⟩ (fun _ => 0) nanVotes 0 = some (0, 0) ∧
    classifierStatsLoopNaN ⟨1, 2⟩ (fun _ => 0) nanVotes 1 = some (1, 2) := by
  have h : trialRankTieNaN ⟨1, 2⟩ (fun _ => 0) nanVotes 0 = some (1, 0) := by decide
  refine ⟨rfl, h, ?_, rfl, ?_⟩
  · rintro ⟨rank, tie, hrt, htie⟩
    rw [h] at hrt
    simp only [Option.some.injEq, Prod.mk.injEq] at hrt
    omega
  · simp [classifierStatsLoopNaN, h]

/-! ## Reset and round-robin coverage -/

/-- Rows of trials that have not run yet still hold what they held when the loop started. -/
theorem testTrials_rows_untouched {W Cloud : Type} (c : Collaborators W Cloud) (s : TestRun W) :
    ∀ k sk, testTrials c k s = some sk →
      ∀ n, k ≤ n → sk.proctor.classifier n = s.proctor.classifier n ∧
        sk.proctor.registration n = s.proctor.registration n := by
  intro k
  induction k with
  | zero =>
    intro sk hsk n _
    cases hsk
    exact ⟨rfl, rfl⟩
  | succ k ih =>
    intro sk hsk n hn
    cases hmid : testTrials c k s with
    | none => simp [testTrials, hmid] at hsk
    | some sm =>
      rw [testTrials_succ c k s sm hmid] at hsk
      obtain ⟨r, hr⟩ := testTrial_query_of_some c k sm sk hsk
      obtain ⟨s', hs', _, _, hframe, _⟩ := testTrial_eq c k sm r hr
      rw [hsk] at hs'
      cases hs'
      have h1 := hframe n (by omega)
      have h2 := ih sm hmid n (by omega)
      exact ⟨h1.1.trans h2.1, h1.2.trans h2.2⟩

/-- C13 (as amended): before its first trial `test` clears the table `confusion` and starts from
an empty confusion matrix, for every prior content; it leaves `classifier` and `registration` as
they were: when trial `ni` starts its two rows still hold their prior content, and the call of
`detector.query` of trial `ni` receives exactly these prior rows as its buffers (a detector that
looks into the rows it is handed finds the stale value 9 in both trials of a run started on
`staleState`). -/
theorem test_resets_confusion_only {W Cloud : Type} (c : Collaborators W Cloud)
    (p : ProctorState) (w : W) (seed : Nat) :
    (∀ i j, (testInit c p w seed).proctor.confusion i j = 0) ∧
    (testInit c p w seed).confusion_matrix.total = 0 ∧
    (testInit c p w seed).proctor.classifier = p.classifier ∧
    (testInit c p w seed).proctor.registration = p.registration ∧
    (∀ ni s, testTrials c ni (testInit c p w seed) = some s →
      s.proctor.classifier ni = p.classifier ni ∧
        s.proctor.registration ni = p.registration ni) ∧
    (∀ ni s r, testTrials c ni (testInit c p w seed) = some s → trialQuery c ni s = some r →
      r.2 = c.query (c.getTestModel s.world r.1).2 ⟨r.1, (c.getTestModel s.world r.1).1⟩
        (p.classifier ni) (p.registration ni)) ∧
    (test probingDetector ⟨2, 1⟩ (staleState ["A", "B"]) [] 0).map (fun out => out.world)
      = some [(9, 9), (9, 9)] := by
  have hrows : ∀ ni s, testTrials c ni (testInit c p w seed) = some s →
      s.proctor.classifier ni = p.classifier ni ∧
        s.proctor.registration ni = p.registration ni := by
    intro ni s hs
    exact testTrials_rows_untouched c (testInit c p w seed) ni s hs ni (Nat.le_refl ni)
  refine ⟨fun _ _ => rfl, rfl, rfl, rfl, hrows, ?_, by decide⟩
  intro ni s r hs hr
  have h := (trialQuery_result c ni s r hr).2
  rw [(hrows ni s hs).1, (hrows ni s hs).2] at h
  exact h

/-- C13 (the claim as stated fails): started on tables that hold 9 in every slot, `test` reaches
its first trial with `classifier` and `registration` still holding 9; only `confusion` was
cleared. -/
theorem test_tables_not_reset :
    (testInit failingDetector (staleState ["A", "B"]) () 0).proctor.confusion 0 0 = 0 ∧
    ¬ (∀ ni mi, ni < 1 → mi < 1 →
        (testInit failingDetector (staleState ["A", "B"]) () 0).proctor.classifier ni mi = 0 ∧
        (testInit failingDetector (staleState ["A", "B"]) () 0).proctor.registration ni mi
          = 0) := by
  refine ⟨rfl, ?_⟩
  intro h
  have h0 := (h 0 0 (by decide) (by decide)).1
  simp [testInit, staleState] at h0

theorem truthId_eq_index (model_ids : List String) (ni : Nat) :
    truthId model_ids ni = (truthIndex model_ids ni).bind fun j => model_ids[j]? := by
  unfold truthId truthIndex
  split <;> rfl

/-- Among the first `T` natural numbers, those congruent to `i` modulo `m` number
`T / m`, plus one when `i < T % m`. -/
theorem count_mod_eq (m i : Nat) (hi : i < m) (T : Nat) :
    ((List.range T).filter fun ni => decide (ni % m = i)).length
      = T / m + if i < T % m then 1 else 0 := by
  have hm : 0 < m := by omega
  induction T with
  | zero => simp
  | succ T ih =>
    rw [List.range_succ, List.filter_append, List.length_append, ih]
    have hsplit : T + 1 = T % m + 1 + m * (T / m) := by
      have := Nat.mod_add_div T m
      omega
    have hlt : T % m < m := Nat.mod_lt _ hm
    by_cases hwrap : T % m + 1 = m
    · have hdiv : (T + 1) / m = T / m + 1 := by
        rw [hsplit, Nat.add_mul_div_left _ _ hm, hwrap, Nat.div_self hm]
        omega
      have hmod : (T + 1) % m = 0 := by
        rw [hsplit, Nat.add_mul_mod_self_left, hwrap, Nat.mod_self]
      rw [hdiv, hmod]
      by_cases hTi : T % m = i
      · have h1 : ¬ i < T % m := by omega
        simp [hTi]
      · have h1 : i < T % m := by omega
        simp [hTi, h1]
    · have hdiv : (T + 1) / m = T / m := by
        rw [hsplit, Nat.add_mul_div_left _ _ hm, Nat.div_eq_of_lt (by omega)]
        omega
      have hmod : (T + 1) % m = T % m + 1 := by
        rw [hsplit, Nat.add_mul_mod_self_left, Nat.mod_eq_of_lt (by omega)]
      rw [hdiv, hmod]
      by_cases hTi : T % m = i
      · have h1 : ¬ i < T % m := by omega
        have h2 : i < T % m + 1 := by omega
        simp [hTi]
      · by_cases h1 : i < T % m
        · have h2 : i < T % m + 1 := by omega
          simp [hTi, h1, h2]
        · have h2 : ¬ i < T % m + 1 := by omega
          simp [hTi, h1, h2]

/-- C14: for every catalog of size `m ≥ 1` and every number of trials `T`, the catalog position
`i < m` is the ground truth (the position `ni % m` from which trial `ni` takes its id) of exactly
`T / m + (1 if i < T % m else 0)` of the trials `0, ..., T-1`. -/
theorem truth_round_robin_count {W Cloud : Type} (c : Collaborators W Cloud) (p : ProctorState)
    (w : W) (seed : Nat) (hcat : p.model_ids ≠ []) (T i : Nat) (hi : i < p.model_ids.length) :
    (∀ ni, trialTruth c p w seed ni
      = (truthIndex p.model_ids ni).bind fun j => p.model_ids[j]?) ∧
    ((List.range T).filter fun ni => decide (truthIndex p.model_ids ni = some i)).length
      = T / p.model_ids.length + if i < T % p.model_ids.length then 1 else 0 := by
  constructor
  · intro ni
    obtain ⟨s, hs, hids, _⟩ := testTrials_completes c (testInit c p w seed) hcat ni
    obtain ⟨r, hr⟩ := trialQuery_of_ne_nil c ni s (by rw [hids]; exact hcat)
    have h1 := (trialQuery_result c ni s r hr).1
    rw [hids] at h1
    have h2 : truthId (testInit c p w seed).proctor.model_ids ni = truthId p.model_ids ni := rfl
    rw [h2] at h1
    simp only [trialTruth, hs, hr, Option.map_some']
    rw [← h1, truthId_eq_index]
  · have hne : p.model_ids.length ≠ 0 := by omega
    rw [← count_mod_eq p.model_ids.length i hi T]
    congr 1
    apply List.filter_congr
    intro ni _
    simp [truthIndex, hne]

/-- Witness for C14: catalog A, B, C and 7 trials; position 0 is the ground truth of
`7 / 3 + 1 = 3` trials. -/
theorem truth_round_robin_count_witness :
    ["A", "B", "C"] ≠ [] ∧ 0 < 3 ∧
    ((List.range 7).filter fun ni => decide (truthIndex ["A", "B", "C"] ni = some 0)).length
      = 7 / 3 + 1 :=
  ⟨by simp, by decide,
    (truth_round_robin_count recorder (staleState ["A", "B", "C"]) ([], []) 0
      (by simp [staleState]) 7 0 (by decide)).2⟩

/-! ## Order and multiplicity of detections -/

theorem mem_detections_row (registration : Table) (num_models ni : Nat) (d : Detection)
    (h : d ∈ (List.range num_models).filterMap fun mi =>
      if registration ni mi = 0 then none else some (⟨ni, mi, registration ni mi⟩ : Detection)) :
    d.ni = ni ∧ d.mi < num_models := by
  simp only [List.mem_filterMap, List.mem_range] at h
  obtain ⟨mi, hmi, h⟩ := h
  by_cases hz : registration ni mi = 0
  · simp [hz] at h
  · simp only [hz, if_false, Option.some.injEq] at h
    subst h
    exact ⟨rfl, hmi⟩

/-- The detection list is in insertion order: trial-major, then by model index. -/
theorem detections_ordered (cfg : Config) (registration : Table) :
    (detections cfg registration).Pairwise insertedBefore := by
  unfold detections
  rw [List.pairwise_flatMap]
  constructor
  · intro ni _
    refine List.Pairwise.filterMap _ ?_ (List.pairwise_lt_range cfg.num_models)
    intro a a' haa b hb b' hb'
    by_cases hz : registration ni a = 0
    · simp [hz] at hb
    · by_cases hz' : registration ni a' = 0
      · simp [hz'] at hb'
      · simp only [hz, hz', if_false, Option.mem_def, Option.some.injEq] at hb hb'
        subst hb
        subst hb'
        exact Or.inr ⟨rfl, haa⟩
  · refine (List.pairwise_lt_range cfg.num_trials).imp ?_
    intro n1 n2 hlt x hx y hy
    have h1 := (mem_detections_row registration cfg.num_models n1 x hx).1
    have h2 := (mem_detections_row registration cfg.num_models n2 y hy).1
    exact Or.inl (by omega)

theorem detections_nodup (cfg : Config) (registration : Table) :
    (detections cfg registration).Nodup := by
  refine (detections_ordered cfg registration).imp ?_
  intro a b hab heq
  subst heq
  rcases hab with h | ⟨_, h⟩ <;> exact Nat.lt_irrefl _ h

theorem countP_le_one_of_nodup {α : Type} (q : α → Bool) :
    ∀ l : List α, l.Nodup →
      (∀ a, a ∈ l → ∀ b, b ∈ l → q a = true → q b = true → a = b) → l.countP q ≤ 1 := by
  intro l
  induction l with
  | nil => intro _ _; simp
  | cons a l ih =>
    intro hnd huniq
    rw [List.nodup_cons] at hnd
    by_cases hq : q a = true
    · have hzero : l.countP q = 0 := by
        rw [List.countP_eq_zero]
        intro b hb hqb
        have := huniq a (List.mem_cons_self a l) b (List.mem_cons_of_mem a hb) hq hqb
        subst this
        exact hnd.1 hb
      simp [List.countP_cons, hq, hzero]
    · have := ih hnd.2 (fun x hx y hy => huniq x (List.mem_cons_of_mem a hx) y
        (List.mem_cons_of_mem a hy))
      simp [List.countP_cons, hq]
      exact this

/-- Two correct detections of the same trial are the same detection: both name the true model of
the trial and both carry the table entry of that slot. -/
theorem correct_detection_unique (cfg : Config) (p : ProctorState) (a b : Detection)
    (ha : a ∈ detections cfg p.registration) (hb : b ∈ detections cfg p.registration)
    (hca : isCorrect p.scenes a = true) (hcb : isCorrect p.scenes b = true)
    (hni : a.ni = b.ni) : a = b := by
  obtain ⟨_, _, hra, _⟩ := (mem_detections cfg p.registration a).1 ha
  obtain ⟨_, _, hrb, _⟩ := (mem_detections cfg p.registration b).1 hb
  simp only [isCorrect, decide_eq_true_eq] at hca hcb
  have hmi : a.mi = b.mi := by
    rw [hni] at hca
    exact_mod_cast hca.trans hcb.symm
  have hd : a.distance = b.distance := by
    rw [← hra, ← hrb, hni, hmi]
  cases a
  cases b
  simp only [Detection.mk.injEq]
  exact ⟨hni, hmi, hd⟩

theorem countP_flatMap_le_length {α β : Type} (q : β → Bool) (f : α → List β) :
    ∀ L : List α, (∀ a, a ∈ L → (f a).countP q ≤ 1) → (L.flatMap f).countP q ≤ L.length := by
  intro L
  induction L with
  | nil => intro _; simp
  | cons a L ih =>
    intro h
    rw [List.flatMap_cons, List.countP_append, List.length_cons]
    have h1 := h a (List.mem_cons_self a L)
    have h2 := ih (fun x hx => h x (List.mem_cons_of_mem a hx))
    omega

/-- The detection list holds at most one correct detection per trial, hence at most
`num_trials` correct detections. -/
theorem detections_correct_le (cfg : Config) (p : ProctorState) :
    (detections cfg p.registration).countP (isCorrect p.scenes) ≤ cfg.num_trials := by
  have h := countP_flatMap_le_length (isCorrect p.scenes)
    (fun ni => (List.range cfg.num_models).filterMap fun mi =>
      if p.registration ni mi = 0 then none
      else some (⟨ni, mi, p.registration ni mi⟩ : Detection))
    (List.range cfg.num_trials) ?_
  · rw [List.length_range] at h
    exact h
  · intro ni hni
    have hsub : ∀ d, d ∈ ((List.range cfg.num_models).filterMap fun mi =>
        if p.registration ni mi = 0 then none
        else some (⟨ni, mi, p.registration ni mi⟩ : Detection)) →
        d ∈ detections cfg p.registration := by
      intro d hd
      unfold detections
      exact List.mem_flatMap.2 ⟨ni, hni, hd⟩
    apply countP_le_one_of_nodup
    · have hnd := detections_nodup cfg p.registration
      unfold detections at hnd
      exact (List.nodup_flatMap.1 hnd).1 ni hni
    · intro a ha b hb hca hcb
      have h1 := (mem_detections_row p.registration cfg.num_models ni a ha).1
      have h2 := (mem_detections_row p.registration cfg.num_models ni b hb).1
      exact correct_detection_unique cfg p a b (hsub a ha) (hsub b hb) hca hcb (h1.trans h2.symm)

/-- C18: for every registration table and every assignment of true model indices, each trial
contributes at most one correct detection to the list walked by `printPrecisionRecall`, so at
most `num_trials` points are emitted, and every emitted precision and every emitted recall lies
in the interval `(0, 1]`. -/
theorem printPrecisionRecall_bounds (sort : List Detection → List Detection)
    (hperm : ∀ l, List.Perm (sort l) l) (cfg : Config) (p : ProctorState) :
    (∀ ni : Nat, (sortedDetections sort cfg p).countP
        (fun d => isCorrect p.scenes d && decide (d.ni = ni)) ≤ 1) ∧
    (printPrecisionRecall sort cfg p).length ≤ cfg.num_trials ∧
    (∀ (k : Nat) (pt : PRPoint), (printPrecisionRecall sort cfg p)[k]? = some pt →
      0 < pt.precisionValue ∧ pt.precisionValue ≤ 1 ∧
        0 < pt.recallValue ∧ pt.recallValue ≤ 1) := by
  have hlen : (printPrecisionRecall sort cfg p).length ≤ cfg.num_trials := by
    rw [printPrecisionRecall, prWalk_length, sortedDetections,
      (hperm (detections cfg p.registration)).countP_eq]
    exact detections_correct_le cfg p
  refine ⟨?_, hlen, ?_⟩
  · intro ni
    apply countP_le_one_of_nodup
    · exact ((hperm _).nodup_iff).2 (detections_nodup cfg p.registration)
    · intro a ha b hb hqa hqb
      simp only [Bool.and_eq_true, decide_eq_true_eq] at hqa hqb
      exact correct_detection_unique cfg p a b ((hperm _).mem_iff.1 ha) ((hperm _).mem_iff.1 hb)
        hqa.1 hqb.1 (hqa.2.trans hqb.2.symm)
  · intro k pt h
    obtain ⟨di, d, _, _, hcnt, hrec, hprec, _⟩ := printPrecisionRecall_point sort cfg p k pt h
    have hk : k < (printPrecisionRecall sort cfg p).length := by
      obtain ⟨hlt, _⟩ := List.getElem?_eq_some.1 h
      exact hlt
    have hkT : k + 1 ≤ cfg.num_trials := by omega
    have hkd : k + 1 ≤ di + 1 := by
      rw [← hcnt]
      exact (List.countP_le_length _).trans (List.length_take_le _ _)
    have hTpos : (0 : ℚ) < (cfg.num_trials : ℚ) := by
      exact_mod_cast (by omega : 0 < cfg.num_trials)
    have hdpos : (0 : ℚ) < ((di + 1 : Nat) : ℚ) := by exact_mod_cast Nat.succ_pos di
    have hkpos : (0 : ℚ) < ((k + 1 : Nat) : ℚ) := by exact_mod_cast Nat.succ_pos k
    rw [hrec, hprec]
    refine ⟨div_pos hkpos hdpos, ?_, div_pos hkpos hTpos, ?_⟩
    · rw [div_le_one hdpos]
      exact_mod_cast hkd
    · rw [div_le_one hTpos]
      exact_mod_cast hkT

/-- Witness for C18: `sampleStats` walked after an insertion sort by distance. -/
theorem printPrecisionRecall_bounds_witness :
    (∀ ni : Nat, (sortedDetections sortByDistance ⟨2, 2⟩ sampleStats).countP
        (fun d => isCorrect sampleStats.scenes d && decide (d.ni = ni)) ≤ 1) ∧
    (printPrecisionRecall sortByDistance ⟨2, 2⟩ sampleStats).length ≤ 2 ∧
    (∀ (k : Nat) (pt : PRPoint),
      (printPrecisionRecall sortByDistance ⟨2, 2⟩ sampleStats)[k]? = some pt →
      0 < pt.precisionValue ∧ pt.precisionValue ≤ 1 ∧
        0 < pt.recallValue ∧ pt.recallValue ≤ 1) :=
  printPrecisionRecall_bounds sortByDistance (fun l => List.perm_insertionSort _ l) ⟨2, 2⟩
    sampleStats

theorem sortByDistance_contract : SortsByDistance sortByDistance := by
  intro l
  haveI : IsTotal Detection (fun a b => a.distance ≤ b.distance) :=
    ⟨fun a b => le_total a.distance b.distance⟩
  haveI : IsTrans Detection (fun a b => a.distance ≤ b.distance) :=
    ⟨fun _ _ _ hab hbc => le_trans hab hbc⟩
  exact ⟨List.perm_insertionSort _ l, List.sorted_insertionSort _ l⟩

/-- Two arrangements of the same detections in ascending order of distance are equal when no two
of the detections have the same distance. -/
theorem sorted_unique_of_distinct (L l₁ l₂ : List Detection)
    (hd : (L.map fun d => d.distance).Nodup)
    (hp₁ : l₁.Perm L) (hs₁ : l₁.Pairwise fun a b => a.distance ≤ b.distance)
    (hp₂ : l₂.Perm L) (hs₂ : l₂.Pairwise fun a b => a.distance ≤ b.distance) :
    l₁ = l₂ := by
  have hmap : l₁.map (fun d => d.distance) = l₂.map (fun d => d.distance) := by
    apply List.eq_of_perm_of_sorted (r := (· ≤ ·))
    · exact (hp₁.map _).trans (hp₂.map _).symm
    · exact List.pairwise_map.2 hs₁
    · exact List.pairwise_map.2 hs₂
  have hinj := List.inj_on_of_nodup_map hd
  clear hs₁ hs₂
  induction l₁ generalizing l₂ L with
  | nil =>
    cases l₂ with
    | nil => rfl
    | cons b l₂ => simp at hmap
  | cons a l₁ ih =>
    cases l₂ with
    | nil => simp at hmap
    | cons b l₂ =>
      simp only [List.map_cons, List.cons.injEq] at hmap
      have hab : a = b :=
        hinj (hp₁.mem_iff.1 (List.mem_cons_self a l₁)) (hp₂.mem_iff.1 (List.mem_cons_self b l₂))
          hmap.1
      subst hab
      congr 1
      have hnd : ((a :: l₁).map fun d => d.distance).Nodup := (hp₁.map _).nodup_iff.2 hd
      exact ih l₁ l₂ (List.nodup_cons.1 hnd).2 (List.Perm.refl _)
        ((List.perm_cons a).1 (hp₂.trans hp₁.symm)) hmap.2
        (List.inj_on_of_nodup_map (List.nodup_cons.1 hnd).2)

/-- C15 (as amended): the detection list is built in trial-major, then model, insertion order;
the list that `printPrecisionRecall` walks is a rearrangement of it in ascending order of
registration distance, for every sorting routine that meets the contract of `std::sort`.  When
no two detections have the same distance that list is the same for every such routine (so it is
the one a stable sort produces); the order among detections of equal distance is not
determined. -/
theorem sortedDetections_ascending (sort : List Detection → List Detection)
    (hsort : SortsByDistance sort) (cfg : Config) (p : ProctorState) :
    (detections cfg p.registration).Pairwise insertedBefore ∧
    (sortedDetections sort cfg p).Perm (detections cfg p.registration) ∧
    (sortedDetections sort cfg p).Pairwise (fun a b => a.distance ≤ b.distance) ∧
    (((detections cfg p.registration).map fun d => d.distance).Nodup →
      ∀ sort', SortsByDistance sort' →
        sortedDetections sort cfg p = sortedDetections sort' cfg p) := by
  refine ⟨detections_ordered cfg p.registration, (hsort _).1, (hsort _).2, ?_⟩
  intro hd sort' hsort'
  exact sorted_unique_of_distinct (detections cfg p.registration) _ _ hd
    (hsort _).1 (hsort _).2 (hsort' _).1 (hsort' _).2

/-- Witness for C15 (as amended): `distinctStats`, whose three detections have the pairwise
different distances 4, 2 and 3, sorted by the insertion sort; every routine that meets the
contract produces the same list. -/
theorem sortedDetections_ascending_witness :
    SortsByDistance sortByDistance ∧
    ((detections ⟨2, 2⟩ distinctStats.registration).map fun d => d.distance).Nodup ∧
    (detections ⟨2, 2⟩ distinctStats.registration).Pairwise insertedBefore ∧
    (sortedDetections sortByDistance ⟨2, 2⟩ distinctStats).Perm
      (detections ⟨2, 2⟩ distinctStats.registration) ∧
    (sortedDetections sortByDistance ⟨2, 2⟩ distinctStats).Pairwise
      (fun a b => a.distance ≤ b.distance) ∧
    (∀ sort', SortsByDistance sort' →
      sortedDetections sortByDistance ⟨2, 2⟩ distinctStats
        = sortedDetections sort' ⟨2, 2⟩ distinctStats) :=
  have hd : ((detections ⟨2, 2⟩ distinctStats.registration).map fun d => d.distance).Nodup := by
    decide
  ⟨sortByDistance_contract, hd,
    (sortedDetections_ascending sortByDistance sortByDistance_contract ⟨2, 2⟩ distinctStats).1,
    (sortedDetections_ascending sortByDistance sortByDistance_contract ⟨2, 2⟩ distinctStats).2.1,
    (sortedDetections_ascending sortByDistance sortByDistance_contract ⟨2, 2⟩
      distinctStats).2.2.1,
    (sortedDetections_ascending sortByDistance sortByDistance_contract ⟨2, 2⟩
      distinctStats).2.2.2 hd⟩

/-- C15 (the claim as stated fails): one trial over 17 models with the same registration
distance 1 against every model (`tiedStats`).  The detection list holds the 17 detections in
model order, and a stable sort leaves it as it is.  `std::sort` (GNU C++ library) takes its
partitioning path for more than 16 elements: the median step swaps positions 0 and 8 and the
partition reverses positions 1 to 16, so the walked list starts with models 8, 16, 15, ... and
the detection of the true model 0 is at position 9: the printed precision is 1/10, not 1. -/
theorem sortedDetections_ties_unstable :
    detections ⟨1, 17⟩ tiedStats.registration
      = (List.range 17).map (fun mi => (⟨0, mi, 1⟩ : Detection)) ∧
    sortByDistance (detections ⟨1, 17⟩ tiedStats.registration)
      = detections ⟨1, 17⟩ tiedStats.registration ∧
    gnuSortChecked (detections ⟨1, 17⟩ tiedStats.registration)
      = some ([8, 16, 15, 14, 13, 12, 11, 10, 9, 0, 7, 6, 5, 4, 3, 2, 1].map
          (fun mi => (⟨0, mi, 1⟩ : Detection))) ∧
    sortedDetections gnuSort ⟨1, 17⟩ tiedStats
      ≠ sortByDistance (detections ⟨1, 17⟩ tiedStats.registration) ∧
    printPrecisionRecall sortByDistance ⟨1, 17⟩ tiedStats = [⟨1, 1, 1⟩] ∧
    printPrecisionRecall gnuSort ⟨1, 17⟩ tiedStats = [⟨1 / 10, 1, 1⟩] := by
  have hdet : detections ⟨1, 17⟩ tiedStats.registration
      = (List.range 17).map (fun mi => (⟨0, mi, 1⟩ : Detection)) := by decide
  have hgnu : gnuSortChecked (detections ⟨1, 17⟩ tiedStats.registration)
      = some ([8, 16, 15, 14, 13, 12, 11, 10, 9, 0, 7, 6, 5, 4, 3, 2, 1].map
          (fun mi => (⟨0, mi, 1⟩ : Detection))) := by
    rw [hdet]
    decide
  have hstable : sortByDistance (detections ⟨1, 17⟩ tiedStats.registration)
      = detections ⟨1, 17⟩ tiedStats.registration := by
    rw [hdet]
    decide
  have hwalk : sortedDetections gnuSort ⟨1, 17⟩ tiedStats
      = [8, 16, 15, 14, 13, 12, 11, 10, 9, 0, 7, 6, 5, 4, 3, 2, 1].map
          (fun mi => (⟨0, mi, 1⟩ : Detection)) := by
    simp only [sortedDetections, gnuSort, hgnu, Option.getD_some]
  refine ⟨hdet, hstable, hgnu, ?_, ?_, ?_⟩
  · rw [hwalk, hstable, hdet]
    decide
  · simp only [printPrecisionRecall, sortedDetections, hstable, hdet]
    simp [prWalk, isCorrect, tiedStats, List.range, List.range.loop]
  · simp only [printPrecisionRecall, hwalk]
    simp [prWalk, isCorrect, tiedStats]

/-! ## The training protocol -/

theorem trainModels_succ {W Cloud : Type} (c : TrainCollaborators W Cloud) (k : Nat)
    (s sk : TrainRun W Cloud) (h : trainModels c k s = some sk) :
    trainModels c (k + 1) s = trainModel c k sk := by
  simp [trainModels, h]

/-- What one pass of the training loop does when it completes. -/
theorem trainModel_eq {W Cloud : Type} (c : TrainCollaborators W Cloud) (mi : Nat)
    (s s' : TrainRun W Cloud) (h : trainModel c mi s = some s') :
    ∃ model_id got done, s.model_ids[mi]? = some model_id ∧
      c.getTrainingModel s.world model_id = some got ∧
      c.train got.world ⟨model_id, got.value⟩ = some done ∧
      s'.model_ids = s.model_ids ∧ s'.timer = s.timer ∧
      s'.world = done.world ∧
      s'.clock = s.clock + got.duration + done.duration ∧
      s'.acquiring = s.acquiring + got.duration ∧
      s'.training = s.training + done.duration := by
  unfold trainModel at h
  cases hid : s.model_ids[mi]? with
  | none => simp [hid] at h
  | some model_id =>
    cases hgot : c.getTrainingModel s.world model_id with
    | none => simp [hid, hgot] at h
    | some got =>
      cases hdone : c.train got.world ⟨model_id, got.value⟩ with
      | none => simp [hid, hgot, hdone] at h
      | some done =>
        simp only [hid, hgot, hdone, Option.some.injEq] at h
        subst h
        exact ⟨model_id, got, done, rfl, hgot, hdone, rfl, rfl, rfl, rfl, rfl, rfl⟩

/-- The protocol of the spec extended by one more model at the end of the catalog. -/
theorem trainPerCatalog_snoc {W Cloud : Type} (c : TrainCollaborators W Cloud) (id : String) :
    ∀ (l : List String) (w w₁ : W) (scenes : List (Scene Cloud)) (got : Returned W Cloud)
      (done : Returned W Unit),
      trainPerCatalog c w l = some (scenes, w₁) →
      c.getTrainingModel w₁ id = some got →
      c.train got.world ⟨id, got.value⟩ = some done →
      trainPerCatalog c w (l ++ [id]) = some (scenes ++ [⟨id, got.value⟩], done.world) := by
  intro l
  induction l with
  | nil =>
    intro w w₁ scenes got done h hgot hdone
    simp only [trainPerCatalog, Option.some.injEq, Prod.mk.injEq] at h
    obtain ⟨rfl, rfl⟩ := h
    simp [trainPerCatalog, hgot, hdone]
  | cons x l ih =>
    intro w w₁ scenes got done h hgot hdone
    simp only [List.cons_append, trainPerCatalog] at h ⊢
    cases hx : c.getTrainingModel w x with
    | none => simp [hx] at h
    | some gx =>
      simp only [hx] at h ⊢
      cases hdx : c.train gx.world ⟨x, gx.value⟩ with
      | none => simp [hdx] at h
      | some dx =>
        simp only [hdx] at h ⊢
        cases hrest : trainPerCatalog c dx.world l with
        | none => simp [hrest] at h
        | some r =>
          simp only [hrest, Option.some.injEq, Prod.mk.injEq] at h
          obtain ⟨rfl, rfl⟩ := h
          have hih := ih dx.world r.2 r.1 got done (by rw [hrest]) hgot hdone
          simp only [List.append_eq, hih, List.cons_append]

/-- The scenes of the protocol of the spec carry the ids of the catalog, in catalog order. -/
theorem trainPerCatalog_ids {W Cloud : Type} (c : TrainCollaborators W Cloud) :
    ∀ (l : List String) (w wf : W) (scenes : List (Scene Cloud)),
      trainPerCatalog c w l = some (scenes, wf) → scenes.map (fun sc => sc.id) = l := by
  intro l
  induction l with
  | nil =>
    intro w wf scenes h
    simp only [trainPerCatalog, Option.some.injEq, Prod.mk.injEq] at h
    rw [← h.1]
    rfl
  | cons x l ih =>
    intro w wf scenes h
    simp only [trainPerCatalog] at h
    cases hx : c.getTrainingModel w x with
    | none => simp [hx] at h
    | some gx =>
      simp only [hx] at h
      cases hdx : c.train gx.world ⟨x, gx.value⟩ with
      | none => simp [hdx] at h
      | some dx =>
        simp only [hdx] at h
        cases hrest : trainPerCatalog c dx.world l with
        | none => simp [hrest] at h
        | some r =>
          simp only [hrest, Option.some.injEq, Prod.mk.injEq] at h
          rw [← h.1, List.map_cons, ih dx.world r.2 r.1 (by rw [hrest])]

/-- When no collaborator call fails and the catalog has at least `k` ids, the first `k` passes of
the training loop complete, and the scenes the detector was trained on in these passes, call by
call, are those of the protocol of the spec run on the first `k` ids of the catalog. -/
theorem trainModels_observed {W Cloud : Type} (c : TrainCollaborators W Cloud)
    (hget : ∀ w id, ∃ r, c.getTrainingModel w id = some r)
    (htrain : ∀ w sc, ∃ r, c.train w sc = some r)
    (s : TrainRun (W × List (Scene Cloud)) Cloud) :
    ∀ k, k ≤ s.model_ids.length →
      ∃ sk scenes wk, trainModels (observed c) k s = some sk ∧
        sk.model_ids = s.model_ids ∧
        trainPerCatalog c s.world.1 (s.model_ids.take k) = some (scenes, wk) ∧
        sk.world = (wk, s.world.2 ++ scenes) := by
  intro k
  induction k with
  | zero =>
    intro _
    exact ⟨s, [], s.world.1, rfl, rfl, by simp [trainPerCatalog], by simp⟩
  | succ k ih =>
    intro hk
    obtain ⟨sk, scenes, wk, hsk, hids, hspec, hworld⟩ := ih (Nat.le_of_succ_le hk)
    have hlt : k < sk.model_ids.length := by rw [hids]; omega
    have hidk : sk.model_ids[k]? = some (sk.model_ids[k]) := List.getElem?_eq_getElem hlt
    obtain ⟨got, hgot⟩ := hget wk (sk.model_ids[k])
    obtain ⟨done, hdone⟩ := htrain got.world ⟨sk.model_ids[k], got.value⟩
    have hstep : trainModel (observed c) k sk
        = some { sk with
            world := (done.world, s.world.2 ++ scenes ++ [⟨sk.model_ids[k], got.value⟩])
            clock := sk.clock + got.duration + done.duration
            acquiring := sk.acquiring + got.duration
            training := sk.training + done.duration } := by
      simp [trainModel, observed, hidk, hworld, hgot, hdone]
    refine ⟨{ sk with
        world := (done.world, s.world.2 ++ scenes ++ [⟨sk.model_ids[k], got.value⟩])
        clock := sk.clock + got.duration + done.duration
        acquiring := sk.acquiring + got.duration
        training := sk.training + done.duration },
      scenes ++ [⟨sk.model_ids[k], got.value⟩], done.world,
      by rw [trainModels_succ (observed c) k s sk hsk, hstep], hids, ?_, ?_⟩
    · have hk' : s.model_ids[k]? = some (sk.model_ids[k]) := by rw [← hids]; exact hidk
      rw [List.take_succ, hk']
      exact trainPerCatalog_snoc c _ _ _ wk scenes got done hspec hgot hdone
    · simp [List.append_assoc]

/-- C12: when no collaborator call fails, `train` on a catalog `id_0, ..., id_{k-1}` returned by
the model source (of the configured size, `k = Config::num_models`) calls `detector.train`
exactly `k` times, once per catalog model; the scene of the `i`-th call is the one built from
`id_i` and the cloud that `getTrainingModel(id_i)` returned, in catalog order: the sequence of
scenes the detector receives is the one of the protocol of the spec (for `steadyTrainer`, whose
clouds are the ids: the scenes of A, B and C). -/
theorem train_scenes_in_catalog_order {W Cloud : Type} (c : TrainCollaborators W Cloud)
    (cfg : Config) (w : W) (now : Nat) (timer : Timer)
    (hget : ∀ w id, ∃ r, c.getTrainingModel w id = some r)
    (htrain : ∀ w sc, ∃ r, c.train w sc = some r)
    (ids : Returned W (List String)) (hcat : c.getModelIDs w = some ids)
    (hlen : ids.value.length = cfg.num_models) :
    ∃ out scenes wf, train (observed c) cfg (w, []) now timer = some out ∧
      out.model_ids = ids.value ∧
      trainPerCatalog c ids.world ids.value = some (scenes, wf) ∧
      out.world = (wf, scenes) ∧
      scenes.length = ids.value.length ∧
      scenes.map (fun sc => sc.id) = ids.value ∧
      (train (observed steadyTrainer) ⟨0, 3⟩ ((), []) 0 freshTimer).map (fun r => r.world.2)
        = some [⟨"A", "A"⟩, ⟨"B", "B"⟩, ⟨"C", "C"⟩] := by
  obtain ⟨sk, scenes, wk, hsk, hids, hspec, hworld⟩ := trainModels_observed c hget htrain
    { model_ids := ids.value, world := (ids.world, []), clock := now + ids.duration,
      timer := timer.start (now + ids.duration), acquiring := 0, training := 0 }
    cfg.num_models (le_of_eq hlen.symm)
  simp only at hspec hworld hids
  rw [List.take_of_length_le (le_of_eq hlen)] at hspec
  have hfetch : (observed c).getModelIDs (w, [])
      = some { value := ids.value, world := (ids.world, []), duration := ids.duration } := by
    simp [observed, hcat]
  have hrun : train (observed c) cfg (w, []) now timer
      = some { sk with timer := sk.timer.stop sk.clock Phase.OBTAIN_CLOUD_TRAINING } := by
    simp only [train, hfetch, hsk]
  have hmap := trainPerCatalog_ids c ids.value ids.world wk scenes hspec
  refine ⟨{ sk with timer := sk.timer.stop sk.clock Phase.OBTAIN_CLOUD_TRAINING }, scenes, wk,
    hrun, hids, hspec, by simpa using hworld, ?_, hmap, by decide⟩
  have := congrArg List.length hmap
  simpa using this

/-- Witness for C12: `steadyTrainer`, whose catalog has three ids, with
`Config::num_models = 3`; the detector is trained on the scenes of A, B and C, in this order. -/
theorem train_scenes_in_catalog_order_witness :
    (["A", "B", "C"] : List String).length = 3 ∧
    ∃ out scenes wf, train (observed steadyTrainer) ⟨0, 3⟩ ((), []) 0 freshTimer = some out ∧
      out.model_ids = ["A", "B", "C"] ∧
      trainPerCatalog steadyTrainer () ["A", "B", "C"] = some (scenes, wf) ∧
      out.world = (wf, scenes) ∧
      scenes.length = (["A", "B", "C"] : List String).length ∧
      scenes.map (fun sc => sc.id) = ["A", "B", "C"] ∧
      (train (observed steadyTrainer) ⟨0, 3⟩ ((), []) 0 freshTimer).map (fun r => r.world.2)
        = some [⟨"A", "A"⟩, ⟨"B", "B"⟩, ⟨"C", "C"⟩] :=
  ⟨rfl,
    train_scenes_in_catalog_order steadyTrainer ⟨0, 3⟩ () 0 freshTimer
      (fun _ _ => ⟨_, rfl⟩) (fun _ _ => ⟨_, rfl⟩)
      { value := ["A", "B", "C"], world := (), duration := 0 } rfl rfl⟩

/-- The timer is untouched inside the training loop, and the clock advances by the time spent
in `getTrainingModel` plus the time spent in `detector.train`. -/
theorem trainModels_clock {W Cloud : Type} (c : TrainCollaborators W Cloud)
    (s : TrainRun W Cloud) :
    ∀ k sk, trainModels c k s = some sk →
      sk.timer = s.timer ∧
        sk.clock + s.acquiring + s.training = s.clock + sk.acquiring + sk.training := by
  intro k
  induction k with
  | zero =>
    intro sk hsk
    cases hsk
    exact ⟨rfl, rfl⟩
  | succ k ih =>
    intro sk hsk
    cases hmid : trainModels c k s with
    | none => simp [trainModels, hmid] at hsk
    | some sm =>
      rw [trainModels_succ c k s sm hmid] at hsk
      obtain ⟨_, got, done, _, _, _, _, htimer, _, hclock, hacq, htrn⟩ :=
        trainModel_eq c k sm sk hsk
      obtain ⟨h1, h2⟩ := ih sm hmid
      exact ⟨htimer.trans h1, by omega⟩

/-- What `train` adds to the timer: the accumulator of `OBTAIN_CLOUD_TRAINING` grows by the time
spent in `getTrainingModel` plus the time spent in `detector.train`; no other accumulator
changes. -/
theorem train_timer {W Cloud : Type} (c : TrainCollaborators W Cloud) (cfg : Config) (w : W)
    (now : Nat) (timer : Timer) (out : TrainRun W Cloud)
    (h : train c cfg w now timer = some out) :
    out.timer.elapsed Phase.OBTAIN_CLOUD_TRAINING
        = timer.elapsed Phase.OBTAIN_CLOUD_TRAINING + out.acquiring + out.training ∧
      ∀ ph, ph ≠ Phase.OBTAIN_CLOUD_TRAINING → out.timer.elapsed ph = timer.elapsed ph := by
  unfold train at h
  cases hids : c.getModelIDs w with
  | none => simp [hids] at h
  | some ids =>
    simp only [hids] at h
    cases hloop : trainModels c cfg.num_models
        { model_ids := ids.value, world := ids.world, clock := now + ids.duration,
          timer := timer.start (now + ids.duration), acquiring := 0, training := 0 } with
    | none => simp [hloop] at h
    | some s =>
      simp only [hloop, Option.some.injEq] at h
      subst h
      obtain ⟨htimer, hclock⟩ := trainModels_clock c _ cfg.num_models s hloop
      simp only at hclock
      constructor
      · simp only [Timer.stop, htimer, Timer.start, if_true]
        omega
      · intro ph hph
        simp [Timer.stop, htimer, Timer.start, hph]

/-- C17 (what the code does): `timer.start()` precedes the whole loop and
`timer.stop(OBTAIN_CLOUD_TRAINING)` follows it, so the time spent inside `detector.train` is
added to the training-acquisition accumulator.  With `steadyTrainer` and one model, acquisition
takes 1 tick and training 10; the accumulator grows by 11, not by 1. -/
theorem train_times_detector_training :
    (train steadyTrainer ⟨0, 1⟩ () 0 freshTimer).map
        (fun out => (out.acquiring, out.training,
          out.timer.elapsed Phase.OBTAIN_CLOUD_TRAINING,
          out.timer.elapsed Phase.DETECTOR_TRAIN))
      = some (1, 10, 11, 0) := by
  decide

/-! ## The sampler: faults and the pick map -/

theorem randomSubsetLoop_eq_checked (rand : Nat → Nat) :
    ∀ (k i : Nat) (bag : List Nat) (edge : Nat) (subset : List Nat),
      randomSubsetLoop rand k i bag edge subset
        = (randomSubsetLoopChecked rand k i bag edge subset).toOption := by
  intro k
  induction k with
  | zero => intro i bag edge subset; rfl
  | succ k ih =>
    intro i bag edge subset
    simp only [randomSubsetLoop, randomSubsetLoopChecked]
    by_cases he : edge = 0
    · simp [he, Except.toOption]
    · simp only [he, if_false]
      cases hv : bag[rand i % edge]? with
      | none => simp [Except.toOption]
      | some v =>
        by_cases hi : i < subset.length
        · simp only [hi, if_true]
          cases hw : bag[edge - 1]? with
          | none => simp [Except.toOption]
          | some w => exact ih _ _ _ _
        · simp [hi, Except.toOption]

/-- With fewer live values than picks left, and all accesses in bounds, the loop reaches a pick
at which `edge` is 0: the pick with index `i + edge`. -/
theorem randomSubsetLoopChecked_exhausts (rand : Nat → Nat) :
    ∀ (k i : Nat) (bag : List Nat) (edge : Nat) (subset : List Nat),
      edge < k → edge ≤ bag.length → i + k ≤ subset.length →
      randomSubsetLoopChecked rand k i bag edge subset
        = Except.error (PickFault.remainderByZero (i + edge)) := by
  intro k
  induction k with
  | zero => intro i bag edge subset h; omega
  | succ k ih =>
    intro i bag edge subset hk hedge hlen
    by_cases he : edge = 0
    · simp [randomSubsetLoopChecked, he]
    · have hpick : rand i % edge < edge := Nat.mod_lt _ (Nat.pos_of_ne_zero he)
      have hpl : rand i % edge < bag.length := lt_of_lt_of_le hpick hedge
      have hel : edge - 1 < bag.length := by omega
      have hi : i < subset.length := by omega
      have hv : bag[rand i % edge]? = some bag[rand i % edge] := List.getElem?_eq_getElem hpl
      have hw : bag[edge - 1]? = some bag[edge - 1] := List.getElem?_eq_getElem hel
      simp only [randomSubsetLoopChecked, he, if_false, hv, hi, if_true, hw]
      rw [ih (i + 1) _ (edge - 1) _ (by omega) (by simp; omega) (by simp; omega)]
      congr 2
      omega

/-- C19: for `0 ≤ r ≤ n` and every `rand()` stream, `randomSubset(n, r)` completes without a
remainder by zero and without an access to `bag` or `subset` outside its bounds; for `r > n` the
pick with index `n`, the `(n+1)`-th, computes `rand() % 0`. -/
theorem randomSubset_picks_safe (rand : Nat → Nat) (n r : Nat) :
    randomSubset rand n r = (randomSubsetChecked rand n r).toOption ∧
    (r ≤ n → ∃ out, randomSubsetChecked rand n r = Except.ok out) ∧
    (n < r → randomSubsetChecked rand n r = Except.error (PickFault.remainderByZero n)) := by
  have hagree : randomSubset rand n r = (randomSubsetChecked rand n r).toOption :=
    randomSubsetLoop_eq_checked rand r 0 (List.range n) n (List.replicate r 0)
  refine ⟨hagree, ?_, ?_⟩
  · intro h
    obtain ⟨out, hout, _⟩ := randomSubsetLoop_spec rand n r 0 (List.range n) n
      (List.replicate r 0) h (by simp) (by simp)
      (by
        intro a b ha hb hab
        rw [List.getElem?_range ha, List.getElem?_range hb] at hab
        exact Option.some.inj hab)
      (by
        intro a v ha hav
        rw [List.getElem?_range ha] at hav
        cases hav
        exact ⟨ha, by simp⟩)
      (by simp) (by simp)
    have hsome : (randomSubsetChecked rand n r).toOption = some out := by
      rw [← hagree]; exact hout
    cases hc : randomSubsetChecked rand n r with
    | error e => simp [hc, Except.toOption] at hsome
    | ok res => exact ⟨res, rfl⟩
  · intro h
    have := randomSubsetLoopChecked_exhausts rand r 0 (List.range n) n (List.replicate r 0) h
      (by simp) (by simp)
    rw [Nat.zero_add] at this
    exact this

/-- Witness for C19: three picks from five values are safe; the third pick from two values takes
a remainder by zero. -/
theorem randomSubset_picks_safe_witness :
    (3 ≤ 5 ∧ ∃ out, randomSubsetChecked (fun i => 7 * i + 3) 5 3 = Except.ok out) ∧
    (2 < 3 ∧ randomSubsetChecked (fun i => 7 * i + 3) 2 3
      = Except.error (PickFault.remainderByZero 2)) :=
  ⟨⟨by decide, (randomSubset_picks_safe (fun i => 7 * i + 3) 5 3).2.1 (by decide)⟩,
    ⟨by decide, (randomSubset_picks_safe (fun i => 7 * i + 3) 2 3).2.2 (by decide)⟩⟩

/-- One pick, when the live range is not empty and all accesses are in bounds. -/
theorem randomSubsetLoop_step (rand : Nat → Nat) (k i : Nat) (bag : List Nat) (edge : Nat)
    (subset : List Nat) (he : edge ≠ 0) (hedge : edge ≤ bag.length) (hi : i < subset.length) :
    randomSubsetLoop rand (k + 1) i bag edge subset
      = randomSubsetLoop rand k (i + 1) (bag.set (rand i % edge) (bag.getD (edge - 1) 0))
          (edge - 1) (subset.set i (bag.getD (rand i % edge) 0)) := by
  have hpick : rand i % edge < edge := Nat.mod_lt _ (Nat.pos_of_ne_zero he)
  have hpl : rand i % edge < bag.length := lt_of_lt_of_le hpick hedge
  have hel : edge - 1 < bag.length := by omega
  have hv : bag[rand i % edge]? = some (bag.getD (rand i % edge) 0) := by
    rw [List.getD_eq_getElem?_getD, List.getElem?_eq_getElem hpl]; rfl
  have hw : bag[edge - 1]? = some (bag.getD (edge - 1) 0) := by
    rw [List.getD_eq_getElem?_getD, List.getElem?_eq_getElem hel]; rfl
  simp only [randomSubsetLoop, he, if_false, hv, hi, if_true, hw]

/-- The loop only writes `subset[i]`, `subset[i+1]`, ...: what it returns has the length of
`subset` and agrees with it below index `i`. -/
theorem randomSubsetLoop_keeps_below (rand : Nat → Nat) :
    ∀ (k i : Nat) (bag : List Nat) (edge : Nat) (subset out : List Nat),
      randomSubsetLoop rand k i bag edge subset = some out →
      out.length = subset.length ∧ ∀ j, j < i → out[j]? = subset[j]? := by
  intro k
  induction k with
  | zero =>
    intro i bag edge subset out h
    simp only [randomSubsetLoop, Option.some.injEq] at h
    subst h
    exact ⟨rfl, fun _ _ => rfl⟩
  | succ k ih =>
    intro i bag edge subset out h
    simp only [randomSubsetLoop] at h
    by_cases he : edge = 0
    · simp [he] at h
    · simp only [he, if_false] at h
      cases hv : bag[rand i % edge]? with
      | none => simp [hv] at h
      | some v =>
        simp only [hv] at h
        by_cases hi : i < subset.length
        · simp only [hi, if_true] at h
          cases hw : bag[edge - 1]? with
          | none => simp [hw] at h
          | some w =>
            simp only [hw] at h
            obtain ⟨hl, hpre⟩ := ih _ _ _ _ _ h
            refine ⟨by simpa using hl, ?_⟩
            intro j hj
            rw [hpre j (by omega), List.getElem?_set]
            have hne : ¬ i = j := by omega
            simp [hne]
        · simp [hi] at h

/-- The loop reads `rand()` only at the picks `i, ..., i + k - 1`. -/
theorem randomSubsetLoop_congr (rand₁ rand₂ : Nat → Nat) :
    ∀ (k i : Nat) (bag : List Nat) (edge : Nat) (subset : List Nat),
      (∀ j, i ≤ j → j < i + k → rand₁ j = rand₂ j) →
      randomSubsetLoop rand₁ k i bag edge subset = randomSubsetLoop rand₂ k i bag edge subset := by
  intro k
  induction k with
  | zero => intro i bag edge subset _; rfl
  | succ k ih =>
    intro i bag edge subset h
    have hi : rand₁ i = rand₂ i := h i (Nat.le_refl i) (by omega)
    simp only [randomSubsetLoop, hi]
    by_cases he : edge = 0
    · simp [he]
    · simp only [he, if_false]
      cases hv : bag[rand₂ i % edge]? with
      | none => rfl
      | some v =>
        by_cases hlt : i < subset.length
        · simp only [hlt, if_true]
          cases hw : bag[edge - 1]? with
          | none => rfl
          | some w => exact ih _ _ _ _ (fun j hj1 hj2 => h j (by omega) (by omega))
        · simp [hlt]

/-- The live range after a pick at position `a`: slot `a` now holds the former last live value,
the other slots are unchanged, and the live values stay pairwise distinct. -/
theorem live_after_pick (bag : List Nat) (edge a : Nat) (hedge : edge ≤ bag.length)
    (ha : a < edge)
    (hinj : ∀ x y, x < edge → y < edge → bag[x]? = bag[y]? → x = y) :
    (∀ x, x < edge - 1 →
      (bag.set a (bag.getD (edge - 1) 0))[x]? = bag[if a = x then edge - 1 else x]?) ∧
    (∀ x y, x < edge - 1 → y < edge - 1 →
      (bag.set a (bag.getD (edge - 1) 0))[x]? = (bag.set a (bag.getD (edge - 1) 0))[y]? →
      x = y) := by
  have hel : edge - 1 < bag.length := by omega
  have hw : bag[edge - 1]? = some (bag.getD (edge - 1) 0) := by
    rw [List.getD_eq_getElem?_getD, List.getElem?_eq_getElem hel]; rfl
  have key : ∀ x, x < edge - 1 →
      (bag.set a (bag.getD (edge - 1) 0))[x]? = bag[if a = x then edge - 1 else x]? := by
    intro x hx
    rw [List.getElem?_set]
    by_cases hax : a = x
    · subst hax
      have hal : a < bag.length := by omega
      rw [if_pos rfl, if_pos rfl, if_pos hal, hw]
    · rw [if_neg hax, if_neg hax]
  refine ⟨key, ?_⟩
  intro x y hx hy hxy
  rw [key x hx, key y hy] at hxy
  have := hinj _ _ (by split <;> omega) (by split <;> omega) hxy
  split at this <;> split at this <;> omega

/-- Injectivity of the pick map along the loop: two streams of pick positions that lead from the
same state to the same result agree at every pick. -/
theorem randomSubsetLoop_injective (rand₁ rand₂ : Nat → Nat) :
    ∀ (k i : Nat) (bag : List Nat) (edge : Nat) (subset out : List Nat),
      k ≤ edge → edge ≤ bag.length → i + k ≤ subset.length →
      (∀ x y, x < edge → y < edge → bag[x]? = bag[y]? → x = y) →
      (∀ j, j < k → rand₁ (i + j) < edge - j) → (∀ j, j < k → rand₂ (i + j) < edge - j) →
      randomSubsetLoop rand₁ k i bag edge subset = some out →
      randomSubsetLoop rand₂ k i bag edge subset = some out →
      ∀ j, j < k → rand₁ (i + j) = rand₂ (i + j) := by
  intro k
  induction k with
  | zero => intro i bag edge subset out _ _ _ _ _ _ _ _ j hj; omega
  | succ k ih =>
    intro i bag edge subset out hk hedge hlen hinj hr₁ hr₂ h₁ h₂
    have he : edge ≠ 0 := by omega
    have hi : i < subset.length := by omega
    have hb₁ : rand₁ i < edge := by simpa using hr₁ 0 (Nat.succ_pos k)
    have hb₂ : rand₂ i < edge := by simpa using hr₂ 0 (Nat.succ_pos k)
    rw [randomSubsetLoop_step rand₁ k i bag edge subset he hedge hi, Nat.mod_eq_of_lt hb₁] at h₁
    rw [randomSubsetLoop_step rand₂ k i bag edge subset he hedge hi, Nat.mod_eq_of_lt hb₂] at h₂
    have hv₁ := (randomSubsetLoop_keeps_below rand₁ k (i + 1) _ _ _ out h₁).2 i (Nat.lt_succ_self i)
    have hv₂ := (randomSubsetLoop_keeps_below rand₂ k (i + 1) _ _ _ out h₂).2 i (Nat.lt_succ_self i)
    rw [List.getElem?_set] at hv₁ hv₂
    simp only [if_true, hi] at hv₁ hv₂
    have hval : bag.getD (rand₁ i) 0 = bag.getD (rand₂ i) 0 :=
      Option.some.inj (hv₁.symm.trans hv₂)
    have hget : ∀ a, a < edge → bag[a]? = some (bag.getD a 0) := by
      intro a ha
      have hal : a < bag.length := by omega
      rw [List.getD_eq_getElem?_getD, List.getElem?_eq_getElem hal]; rfl
    have hpick : rand₁ i = rand₂ i :=
      hinj _ _ hb₁ hb₂ (by rw [hget _ hb₁, hget _ hb₂, hval])
    rw [← hpick] at h₂
    have hlive := live_after_pick bag edge (rand₁ i) hedge hb₁ hinj
    have hrest := ih (i + 1) _ (edge - 1) _ out (by omega) (by simp; omega) (by simp; omega)
      hlive.2
      (fun j hj => by
        have := hr₁ (j + 1) (by omega)
        have heq : i + 1 + j = i + (j + 1) := by omega
        rw [heq]; omega)
      (fun j hj => by
        have := hr₂ (j + 1) (by omega)
        have heq : i + 1 + j = i + (j + 1) := by omega
        rw [heq]; omega)
      h₁ h₂
    intro j hj
    cases j with
    | zero => simpa using hpick
    | succ j =>
      have := hrest j (by omega)
      have heq : i + 1 + j = i + (j + 1) := by omega
      rw [heq] at this
      exact this

/-- Surjectivity of the pick map along the loop: every sequence `t` of pairwise distinct live
values is produced by some stream of pick positions. -/
theorem randomSubsetLoop_surjective :
    ∀ (t : List Nat) (i : Nat) (bag : List Nat) (edge : Nat) (subset : List Nat),
      t.length ≤ edge → edge ≤ bag.length → i + t.length ≤ subset.length →
      (∀ x y, x < edge → y < edge → bag[x]? = bag[y]? → x = y) →
      t.Nodup → (∀ v, v ∈ t → ∃ a, a < edge ∧ bag[a]? = some v) →
      ∃ rand : Nat → Nat, (∀ j, j < t.length → rand (i + j) < edge - j) ∧
        ∃ out, randomSubsetLoop rand t.length i bag edge subset = some out ∧
          ∀ j, j < t.length → out[i + j]? = t[j]? := by
  intro t
  induction t with
  | nil =>
    intro i bag edge subset _ _ _ _ _ _
    exact ⟨fun _ => 0, fun j hj => absurd hj (Nat.not_lt_zero j), subset, rfl,
      fun j hj => absurd hj (Nat.not_lt_zero j)⟩
  | cons v t ih =>
    intro i bag edge subset hk hedge hlen hinj hnd hlive
    simp only [List.length_cons] at hk hlen
    rw [List.nodup_cons] at hnd
    have he : edge ≠ 0 := by omega
    have hi : i < subset.length := by omega
    obtain ⟨a, ha, hav⟩ := hlive v (List.mem_cons_self v t)
    have hal : a < bag.length := by omega
    have hgetD : bag.getD a 0 = v := by
      rw [List.getD_eq_getElem?_getD, hav]; rfl
    obtain ⟨hkey, hinj'⟩ := live_after_pick bag edge a hedge ha hinj
    have hlive' : ∀ u, u ∈ t →
        ∃ b, b < edge - 1 ∧ (bag.set a (bag.getD (edge - 1) 0))[b]? = some u := by
      intro u hu
      obtain ⟨b, hb, hbu⟩ := hlive u (List.mem_cons_of_mem v hu)
      have hne : a ≠ b := by
        rintro rfl
        rw [hav] at hbu
        exact hnd.1 (Option.some.inj hbu ▸ hu)
      by_cases hlast : b = edge - 1
      · refine ⟨a, by omega, ?_⟩
        rw [hkey a (by omega), if_pos rfl, ← hlast]
        exact hbu
      · refine ⟨b, by omega, ?_⟩
        rw [hkey b (by omega), if_neg hne]
        exact hbu
    obtain ⟨rand', hbound, out, hout, hvals⟩ := ih (i + 1)
      (bag.set a (bag.getD (edge - 1) 0)) (edge - 1) (subset.set i (bag.getD a 0))
      (by omega) (by simp; omega) (by simp; omega) hinj' hnd.2 hlive'
    refine ⟨fun idx => if idx = i then a else rand' idx, ?_, out, ?_, ?_⟩
    · intro j hj
      cases j with
      | zero => simpa using ha
      | succ j =>
        have hne : ¬ i + (j + 1) = i := by omega
        simp only [hne, if_false]
        have := hbound j (by simpa using hj)
        have heq : i + 1 + j = i + (j + 1) := by omega
        rw [heq] at this
        omega
    · rw [List.length_cons, randomSubsetLoop_step _ t.length i bag edge subset he hedge hi]
      simp only [if_true, Nat.mod_eq_of_lt ha]
      rw [randomSubsetLoop_congr _ rand' t.length (i + 1) _ _ _ (fun j hj1 _ => by
        have hne : ¬ j = i := by omega
        simp [hne])]
      exact hout
    · intro j hj
      cases j with
      | zero =>
        have := (randomSubsetLoop_keeps_below rand' t.length (i + 1) _ _ _ out hout).2 i
          (Nat.lt_succ_self i)
        rw [List.getElem?_set] at this
        simp only [if_true, hi, hgetD] at this
        simpa using this
      | succ j =>
        have := hvals j (by simpa using hj)
        have heq : i + 1 + j = i + (j + 1) := by omega
        rw [heq] at this
        simpa using this

theorem range_live (n : Nat) :
    (∀ x y, x < n → y < n → (List.range n)[x]? = (List.range n)[y]? → x = y) ∧
    (∀ a v, a < n → (List.range n)[a]? = some v → v < n ∧ v ∉ ([] : List Nat)) := by
  constructor
  · intro a b ha hb hab
    rw [List.getElem?_range ha, List.getElem?_range hb] at hab
    exact Option.some.inj hab
  · intro a v ha hav
    rw [List.getElem?_range ha] at hav
    cases hav
    exact ⟨ha, by simp⟩

/-- The pick map of `randomSubset` is injective on streams of pick positions. -/
theorem randomSubset_injective (n r : Nat) (hr : r ≤ n) (rand₁ rand₂ : Nat → Nat)
    (h₁ : ∀ i, i < r → rand₁ i < n - i) (h₂ : ∀ i, i < r → rand₂ i < n - i)
    (heq : randomSubset rand₁ n r = randomSubset rand₂ n r) :
    ∀ i, i < r → rand₁ i = rand₂ i := by
  obtain ⟨out, hout, _⟩ := randomSubsetLoop_spec rand₁ n r 0 (List.range n) n
    (List.replicate r 0) hr (by simp) (by simp) (range_live n).1
    (by simpa using (range_live n).2) (by simp) (by simp)
  have hout₂ : randomSubset rand₂ n r = some out := by rw [← heq]; exact hout
  have := randomSubsetLoop_injective rand₁ rand₂ r 0 (List.range n) n (List.replicate r 0) out
    hr (by simp) (by simp) (range_live n).1
    (fun j hj => by simpa using h₁ j hj) (fun j hj => by simpa using h₂ j hj) hout hout₂
  intro i hi
  simpa using this i hi

/-- Every ordered selection of `r` distinct values below `n` is returned for some stream of pick
positions. -/
theorem randomSubset_surjective (n r : Nat) (hr : r ≤ n) (t : List Nat) (hlen : t.length = r)
    (hnd : t.Nodup) (hlt : ∀ x, x ∈ t → x < n) :
    ∃ rand : Nat → Nat, (∀ i, i < r → rand i < n - i) ∧ randomSubset rand n r = some t := by
  subst hlen
  obtain ⟨rand, hbound, out, hout, hvals⟩ := randomSubsetLoop_surjective t 0 (List.range n) n
    (List.replicate t.length 0) hr (by simp) (by simp) (range_live n).1 hnd
    (fun v hv => ⟨v, hlt v hv, List.getElem?_range (hlt v hv)⟩)
  refine ⟨rand, fun i hi => by simpa using hbound i hi, ?_⟩
  have hl := (randomSubsetLoop_keeps_below rand t.length 0 _ _ _ out hout).1
  simp only [List.length_replicate] at hl
  have : out = t := by
    apply List.ext_getElem?
    intro j
    by_cases hj : j < t.length
    · simpa using hvals j hj
    · rw [List.getElem?_eq_none (by omega), List.getElem?_eq_none (by omega)]
  rw [this] at hout
  exact hout

theorem picksToRand_lt (n r : Nat) (ps : (i : Fin r) → Fin (n - i)) (i : Nat) (hi : i < r) :
    picksToRand n r ps i < n - i := by
  simp only [picksToRand, hi, dif_pos]
  exact (ps ⟨i, hi⟩).isLt

/-- C20: for fixed `0 ≤ r ≤ n` the map computed by `randomSubset` from the pick positions
`p_0, ..., p_{r-1}` (with `p_i` in `[0, n - i)`) to the returned sequence lands in the ordered
selections of `r` distinct values below `n`, is injective, and reaches every such selection; each
selection is the result of exactly one of the sequences of pick positions, so equally likely
sequences of picks give equally likely results. -/
theorem randomSubset_pick_map_bijective (n r : Nat) (hr : r ≤ n) :
    (∀ rand : Nat → Nat, ∃ out, randomSubset rand n r = some out ∧ out.length = r ∧
      out.Nodup ∧ ∀ x, x ∈ out → x < n) ∧
    (∀ rand₁ rand₂ : Nat → Nat, (∀ i, i < r → rand₁ i < n - i) → (∀ i, i < r → rand₂ i < n - i) →
      randomSubset rand₁ n r = randomSubset rand₂ n r → ∀ i, i < r → rand₁ i = rand₂ i) ∧
    (∀ t : List Nat, t.length = r → t.Nodup → (∀ x, x ∈ t → x < n) →
      ∃ rand : Nat → Nat, (∀ i, i < r → rand i < n - i) ∧ randomSubset rand n r = some t) ∧
    (∀ t : List Nat, t.length = r → t.Nodup → (∀ x, x ∈ t → x < n) →
      (Finset.univ.filter fun ps : (i : Fin r) → Fin (n - i) =>
        randomSubset (picksToRand n r ps) n r = some t).card = 1) := by
  refine ⟨?_, randomSubset_injective n r hr, randomSubset_surjective n r hr, ?_⟩
  · intro rand
    obtain ⟨out, hout, hl, hn, hx⟩ := randomSubsetLoop_spec rand n r 0 (List.range n) n
      (List.replicate r 0) hr (by simp) (by simp) (range_live n).1
      (by simpa using (range_live n).2) (by simp) (by simp)
    have hlen : out.length = r := by simpa using hl
    have ht : out.take (0 + r) = out := by
      rw [Nat.zero_add, ← hlen]; exact List.take_length out
    rw [ht] at hn hx
    exact ⟨out, hout, hlen, hn, hx⟩
  · intro t hlen hnd hlt
    obtain ⟨rand, hbound, hrand⟩ := randomSubset_surjective n r hr t hlen hnd hlt
    rw [Finset.card_eq_one]
    refine ⟨fun i => ⟨rand i, hbound i i.isLt⟩, ?_⟩
    have hagree : ∀ j, 0 ≤ j → j < 0 + r →
        picksToRand n r (fun i => ⟨rand i, hbound i i.isLt⟩) j = rand j := by
      intro j _ hj
      have hj' : j < r := by omega
      simp [picksToRand, hj']
    have hself : randomSubset (picksToRand n r (fun i => ⟨rand i, hbound i i.isLt⟩)) n r
        = some t := by
      rw [← hrand]
      exact randomSubsetLoop_congr _ _ r 0 _ _ _ hagree
    ext ps
    simp only [Finset.mem_filter, Finset.mem_univ, true_and, Finset.mem_singleton]
    constructor
    · intro hps
      have hinj := randomSubset_injective n r hr _ _ (picksToRand_lt n r ps)
        (picksToRand_lt n r _) (hps.trans hself.symm)
      funext i
      apply Fin.ext
      have := hinj i i.isLt
      simpa [picksToRand, i.isLt] using this
    · intro hps
      rw [hps]
      exact hself

/-- Witness for C20: two picks from three values. -/
theorem randomSubset_pick_map_bijective_witness :
    2 ≤ 3 ∧
    (∀ rand : Nat → Nat, ∃ out, randomSubset rand 3 2 = some out ∧ out.length = 2 ∧
      out.Nodup ∧ ∀ x, x ∈ out → x < 3) ∧
    (∀ rand₁ rand₂ : Nat → Nat, (∀ i, i < 2 → rand₁ i < 3 - i) → (∀ i, i < 2 → rand₂ i < 3 - i) →
      randomSubset rand₁ 3 2 = randomSubset rand₂ 3 2 → ∀ i, i < 2 → rand₁ i = rand₂ i) ∧
    (∀ t : List Nat, t.length = 2 → t.Nodup → (∀ x, x ∈ t → x < 3) →
      ∃ rand : Nat → Nat, (∀ i, i < 2 → rand i < 3 - i) ∧ randomSubset rand 3 2 = some t) ∧
    (∀ t : List Nat, t.length = 2 → t.Nodup → (∀ x, x ∈ t → x < 3) →
      (Finset.univ.filter fun ps : (i : Fin 2) → Fin (3 - i) =>
        randomSubset (picksToRand 3 2 ps) 3 2 = some t).card = 1) :=
  ⟨by decide, randomSubset_pick_map_bijective 3 2 (by decide)⟩

end Proctor
